import Mathlib

/-!
# A run-time type identification protocol without language RTTI

Shallow embedding of `creatures.cpp`: the identity tokens (`class_id`), the
static ancestor walk (`is_derived<X>::from<Y>()`), the virtual overrides that
`DERIVED_FROM` generates, and the narrowing helpers `is`, `assert_is`, `as`
of the root class `creature`.

Modelling decisions.

* A class of the hierarchy is either the root `creature` or a class that
  joined with `DERIVED_FROM(base)` and defined its `id()` with a function-local
  static `class_id("name")`; `Cls` records exactly that (name and base).
* The process-wide mutable state is the atomic counter `g_last_class_index`
  together with the function-local statics of the `id()` accessors that have
  been initialised so far.  Every operation passes this state explicitly.
* `int` arithmetic on the counter wraps modulo `2^32` (`wrap32`).
* In `X::id() == Y::id()` the left operand is evaluated first.
* A `throw runtime_error(msg)` is the `Except.error msg` outcome.
* `main` is modelled for an arbitrary content of its vector `Zoo`; the
  operands of a `<<` chain are evaluated from left to right, the text written
  to `cout` and `cerr` is accumulated in strings, and allocation never fails.
-/

namespace Creatures

/-! ## Classes of the hierarchy -/

/-- A class of the hierarchy: the root `creature`, or a class declared with
`DERIVED_FROM(base)` whose `id()` holds a static `class_id(name)`. -/
inductive Cls where
  | creature : Cls
  | derived (name : String) (base : Cls) : Cls
  deriving DecidableEq, Repr

/-- The literal passed to the `class_id` constructor in `X::id()`. -/
def Cls.name : Cls → String
  | .creature => "creature"
  | .derived n _ => n

/-- The class `animal : public creature`, `DERIVED_FROM(creature)`. -/
def animal : Cls := .derived "animal" .creature

/-- The class `cat : public animal`, `DERIVED_FROM(animal)`. -/
def cat : Cls := .derived "cat" animal

/-- The class `dog : public animal`, `DERIVED_FROM(animal)`. -/
def dog : Cls := .derived "dog" animal

/-- The class `mushroom : public creature`, `DERIVED_FROM(creature)`. -/
def mushroom : Cls := .derived "mushroom" .creature

/-- The five classes the translation unit defines. -/
def registered : List Cls := [.creature, animal, cat, dog, mushroom]

/-- The ancestor chain of a class: the class itself, then the chain of its
`base` typedef, ending at `creature`. -/
def Cls.chain : Cls → List Cls
  | .creature => [.creature]
  | .derived n b => .derived n b :: Cls.chain b

/-! ## Identity tokens and the global state -/

/-- Two's complement wrap-around of a 32-bit `int`. -/
def wrap32 (x : Int) : Int := (x + 2147483648) % 4294967296 - 2147483648

/-- The class `class_id`: a diagnostic name and a sequence value. -/
structure class_id where
  m_name : String
  m_index : Int
  deriving DecidableEq, Repr

/-- The accessor `class_id::name()`. -/
def class_id.name (c : class_id) : String := c.m_name

/-- The accessor `class_id::index()`. -/
def class_id.index (c : class_id) : Int := c.m_index

/-- The comparison `class_id::operator==`. -/
def class_id.eq (c another : class_id) : Bool :=
  decide (c.m_index = another.m_index)

/-- The mutable state of the process: the counter `g_last_class_index` and the
function-local statics of the `id()` accessors initialised so far (newest
first). -/
structure Globals where
  g_last_class_index : Int
  statics : List (Cls × class_id)
  deriving DecidableEq, Repr

/-- The state at program start: the counter is zero-initialised and no
function-local static has been constructed. -/
def Globals.init : Globals := ⟨0, []⟩

/-- The constructor `class_id(class_name)`: `m_index(++g_last_class_index)`. -/
def class_id.ctor (class_name : String) (g : Globals) : class_id × Globals :=
  let i := wrap32 (g.g_last_class_index + 1)
  (⟨class_name, i⟩, ⟨i, g.statics⟩)

/-- The function-local static of `X::id()`, if it has been initialised. -/
def lookupStatic (X : Cls) : List (Cls × class_id) → Option class_id
  | [] => none
  | (Z, c) :: rest => if Z = X then some c else lookupStatic X rest

/-- The accessor `X::id()`: the static is constructed on the first call and
returned unchanged by every later call. -/
def Cls.id (X : Cls) (g : Globals) : class_id × Globals :=
  match lookupStatic X g.statics with
  | some c => (c, g)
  | none =>
    let r := class_id.ctor X.name g
    (r.1, ⟨r.2.g_last_class_index, (X, r.1) :: r.2.statics⟩)

/-- The state after requesting `X::id()` for each class `X` of a list, in
order. -/
def requestAll (calls : List Cls) (g : Globals) : Globals :=
  calls.foldl (fun s X => (Cls.id X s).2) g

/-- The state after constructing one `class_id` for each name of a list, in
order. -/
def constructAll (names : List String) (g : Globals) : Globals :=
  names.foldl (fun s n => (class_id.ctor n s).2) g

/-! ## The static resolver -/

/-- The template `is_derived<X>::from<Y>()` with its specialisation for
`creature`. -/
def is_derived : Cls → Cls → Globals → Bool × Globals
  | .creature, Y, g =>
    let a := Cls.id .creature g
    let b := Cls.id Y a.2
    (a.1.eq b.1, b.2)
  | .derived n base, Y, g =>
    let a := Cls.id (.derived n base) g
    let b := Cls.id Y a.2
    if a.1.eq b.1 then (true, b.2) else is_derived base Y b.2

/-- The static walk instrumented with the list of classes whose identity it
compares against the identity of `Y`, in visiting order; the second component
is the result and final state of the walk. -/
def is_derived_traced : Cls → Cls → Globals → List Cls × (Bool × Globals)
  | .creature, Y, g =>
    let a := Cls.id .creature g
    let b := Cls.id Y a.2
    ([.creature], (a.1.eq b.1, b.2))
  | .derived n base, Y, g =>
    let a := Cls.id (.derived n base) g
    let b := Cls.id Y a.2
    if a.1.eq b.1 then ([.derived n base], (true, b.2))
    else
      let r := is_derived_traced base Y b.2
      (.derived n base :: r.1, r.2)

/-- The number of `base` links from a class up to `creature`. -/
def Cls.depth : Cls → Nat
  | .creature => 0
  | .derived _ b => Cls.depth b + 1

/-! ## Objects and the virtual members -/

/-- A data member of an object. -/
inductive Member where
  | str (s : String) : Member
  | flag (b : Bool) : Member
  | uint (n : Nat) : Member
  deriving DecidableEq, Repr

/-- An object seen through a `creature` reference: its dynamic class (what the
virtual table encodes) and its data members. -/
structure Obj where
  dyn : Cls
  members : List Member
  deriving DecidableEq, Repr

/-- The result of `make_shared<creature>()`. -/
def creature.mk : Obj := ⟨.creature, []⟩

/-- The constructor `cat(cat_name, is_cute)`. -/
def cat.mk (cat_name : String) (is_cute : Bool) : Obj :=
  ⟨cat, [.str cat_name, .flag is_cute]⟩

/-- The constructor `dog(dog_name, dog_strength)`. -/
def dog.mk (dog_name : String) (dog_strength : Nat) : Obj :=
  ⟨dog, [.str dog_name, .uint (dog_strength % 4294967296)]⟩

/-- The constructor `mushroom(is_poisoned)`. -/
def mushroom.mk (is_poisoned : Bool) : Obj := ⟨mushroom, [.flag is_poisoned]⟩

/-- The body of `who()` in class `X`: `creature::who` and the override of
`DERIVED_FROM` both return `id()` of the class they are written in. -/
def who_override : Cls → Globals → class_id × Globals
  | .creature, g => Cls.id .creature g
  | .derived n base, g => Cls.id (.derived n base) g

/-- The body of `is_base_id(base_id)` in class `X`: `creature::is_base_id`
compares with its own `id()`; the override of `DERIVED_FROM` compares with its
own `id()` and otherwise calls `base::is_base_id` (a qualified call). -/
def is_base_id_override : Cls → class_id → Globals → Bool × Globals
  | .creature, base_id, g =>
    let c := Cls.id .creature g
    (base_id.eq c.1, c.2)
  | .derived n base, base_id, g =>
    let c := Cls.id (.derived n base) g
    if base_id.eq c.1 then (true, c.2) else is_base_id_override base base_id c.2

/-- The virtual call `who()`: dispatch on the dynamic class. -/
def creature.who (self : Obj) (g : Globals) : class_id × Globals :=
  who_override self.dyn g

/-- The virtual call `is_base_id(base_id)`: dispatch on the dynamic class. -/
def creature.is_base_id (self : Obj) (base_id : class_id) (g : Globals) :
    Bool × Globals :=
  is_base_id_override self.dyn base_id g

/-- The member template `creature::is<T>()`:
`is_base_id(T::id()) || T::id() == who()`. -/
def creature.is (self : Obj) (T : Cls) (g : Globals) : Bool × Globals :=
  let t := Cls.id T g
  let r := creature.is_base_id self t.1 t.2
  if r.1 then (true, r.2)
  else
    let t2 := Cls.id T r.2
    let w := creature.who self t2.2
    (t2.1.eq w.1, w.2)

/-- The message of the `runtime_error` thrown by `assert_is`. -/
def TypeMismatch : String :=
  "Creature is not inherited from this class of creatures."

/-- The member template `creature::assert_is<T>()`. -/
def creature.assert_is (self : Obj) (T : Cls) (g : Globals) :
    Except String Unit × Globals :=
  let r := creature.is self T g
  if !r.1 then (.error TypeMismatch, r.2) else (.ok (), r.2)

/-- A reference of static type `static` to the object `target`. -/
structure Ref where
  static : Cls
  target : Obj
  deriving DecidableEq, Repr

/-- The member template `const T& creature::as<T>() const`. -/
def creature.as_const (self : Obj) (T : Cls) (g : Globals) :
    Except String Ref × Globals :=
  match creature.assert_is self T g with
  | (.error e, g1) => (.error e, g1)
  | (.ok (), g1) => (.ok ⟨T, self⟩, g1)

/-- The member template `T& creature::as<T>()`. -/
def creature.as (self : Obj) (T : Cls) (g : Globals) :
    Except String Ref × Globals :=
  match creature.assert_is self T g with
  | (.error e, g1) => (.error e, g1)
  | (.ok (), g1) => (.ok ⟨T, self⟩, g1)

/-! ## Program states -/

/-- Every static initialised in `g` is still initialised, with the same token,
in `g2`. -/
def Globals.le (g g2 : Globals) : Prop :=
  ∀ Z c, lookupStatic Z g.statics = some c → lookupStatic Z g2.statics = some c

/-- Coherence of the state of a program whose classes are `U`: the statics
belong to distinct classes of `U`, carry pairwise distinct sequence values and
the names of their classes, and the values the counter hands out next are
not in use. -/
structure Inv (U : List Cls) (g : Globals) : Prop where
  nodup : (g.statics.map Prod.fst).Nodup
  sub : ∀ X, X ∈ g.statics.map Prod.fst → X ∈ U
  inj : ∀ X Y a b, lookupStatic X g.statics = some a →
    lookupStatic Y g.statics = some b → a.m_index = b.m_index → X = Y
  names : ∀ X a, lookupStatic X g.statics = some a → a.m_name = X.name
  fresh : ∀ k : Nat, 1 ≤ k → g.statics.length + k ≤ 4294967296 →
    ∀ X c, lookupStatic X g.statics = some c →
      c.m_index ≠ wrap32 (g.g_last_class_index + k)

/-- The states a program with classes `U` can be in: those reached from
program start by some sequence of `id()` requests on classes of `U`. -/
def Reachable (U : List Cls) (g : Globals) : Prop :=
  ∃ calls : List Cls, (∀ X, X ∈ calls → X ∈ U) ∧ g = requestAll calls Globals.init

/-- The tokens created by constructing one `class_id` for each name of a
list, in creation order. -/
def constructTokens : List String → Globals → List class_id
  | [], _ => []
  | n :: rest, g => (class_id.ctor n g).1 :: constructTokens rest (class_id.ctor n g).2

/-! ## The demonstration classes and `main` -/

/-- The accessor `animal::name()`; the empty string stands for member lists
that no constructor of an `animal` produces. -/
def animal.name (A : Ref) : String :=
  match A.target.members with
  | .str s :: _ => s
  | _ => ""

/-- The accessor `cat::cute()`. -/
def cat.cute (C : Ref) : Bool :=
  match C.target.members with
  | [_, .flag b] => b
  | _ => false

/-- The accessor `dog::strength()`. -/
def dog.strength (D : Ref) : Nat :=
  match D.target.members with
  | [_, .uint n] => n
  | _ => 0

/-- The accessor `mushroom::poisoned()`. -/
def mushroom.poisoned (M : Ref) : Bool :=
  match M.target.members with
  | [.flag b] => b
  | _ => false

/-- The override `cat::say()`. -/
def cat.say (C : Ref) : String :=
  if cat.cute C then "Meow!" else "MEEEAAAOOOOOW!!!"

/-- The override `dog::say()`: `"AR" + string(m_strength, 'R') + "GH!"`. -/
def dog.say (D : Ref) : String :=
  "AR" ++ String.mk (List.replicate (dog.strength D) 'R') ++ "GH!"

/-- The virtual call `say()` through an `animal` reference: dispatch on the
dynamic class; `animal::say` itself is pure virtual, so classes other than
`cat` and `dog` have no body to run and yield the empty string here. -/
def animal.say (A : Ref) : String :=
  if A.target.dyn = cat then cat.say A
  else if A.target.dyn = dog then dog.say A
  else ""

/-- The function `eat(const mushroom&)`. -/
def eat (M : Ref) : String :=
  if mushroom.poisoned M then "It was very bad idea!.." else "So tasty!!!"

/-- The text `cout` writes for a `bool` under `boolalpha`. -/
def boolalpha (b : Bool) : String := if b then "true" else "false"

/-- The sixteen queries of the hierarchy test of `main`, each with the text
written before its result, in the order of the `<<` chain. -/
def hierarchy_queries : List (String × Cls × Cls) :=
  [("\n > animal is derived from creature: ", animal, .creature),
   ("\n > creature is derived from animal: ", .creature, animal),
   ("\n > cat is derived from animal: ", cat, animal),
   ("\n > dog is derived from animal: ", dog, animal),
   ("\n > cat is derived from creature: ", cat, .creature),
   ("\n > dog is derived from creature: ", dog, .creature),
   ("\n > creature is derived from dog: ", .creature, dog),
   ("\n > mushroom is derived from creature: ", mushroom, .creature),
   ("\n > mushroom is derived from animal: ", mushroom, animal),
   ("\n > mushroom is derived from cat: ", mushroom, cat),
   ("\n > dog is derived from mushroom: ", dog, mushroom),
   ("\n > creature is derived from creature: ", .creature, .creature),
   ("\n > mushroom is derived from mushroom: ", mushroom, mushroom),
   ("\n > animal is derived from animal: ", animal, animal),
   ("\n > cat is derived from cat: ", cat, cat),
   ("\n > dog is derived from dog: ", dog, dog)]

/-- The first statement of `main`: the header, the sixteen results evaluated
from left to right, and `endl`; it returns the text written to `cout` and the
state. -/
def hierarchy_test (out : String) (g : Globals) : String × Globals :=
  let r := hierarchy_queries.foldl
    (fun s q =>
      let b := is_derived q.2.1 q.2.2 s.2
      (s.1 ++ q.1 ++ boolalpha b.1, b.2))
    (out ++ "\n Time to test hierarchy of classes:", g)
  (r.1 ++ "\n", r.2)

/-- The branch of the Zoo loop that handled an object (instrumentation: the
source only prints). -/
inductive Branch where
  | is_cat : Branch
  | is_dog : Branch
  | unknown_beast : Branch
  | is_mushroom : Branch
  | unknown_creature : Branch
  deriving DecidableEq, Repr

/-- The block of the Zoo loop entered when `X->is<animal>()` holds, from the
reference `A` on: it returns the branch taken or the exception thrown, the
text written to `cout` so far, and the state. -/
def visit_animal (A : Ref) (out : String) (g : Globals) :
    Except String Branch × String × Globals :=
  let out1 := out ++ " called \"" ++ animal.name A ++ "\"" ++ " said: \"" ++
    animal.say A ++ "\""
  let c := creature.is A.target cat g
  if c.1 then
    match creature.as_const A.target cat c.2 with
    | (.error e, g1) => (.error e, out1, g1)
    | (.ok C, g1) =>
      (.ok .is_cat, out1 ++ (if cat.cute C then " So cute!" else " Not cute!"), g1)
  else
    let d := creature.is A.target dog c.2
    if d.1 then
      match creature.as_const A.target dog d.2 with
      | (.error e, g1) => (.error e, out1, g1)
      | (.ok D, g1) =>
        (.ok .is_dog, out1 ++ " Strength: " ++ toString (dog.strength D), g1)
    else (.ok .unknown_beast, out1 ++ " Nobody knows who is that beast!", d.2)

/-- The body of the Zoo loop for the element `X`; `X->as<T>()` goes through a
`creature*`, hence the non-const overload, the calls on `A` through a
`const animal&`, hence the const one. -/
def zoo_visit (X : Obj) (out : String) (g : Globals) :
    Except String Branch × String × Globals :=
  let w := creature.who X g
  let out0 := out ++ "\n > " ++ w.1.name
  let a := creature.is X animal w.2
  if a.1 then
    match creature.as X animal a.2 with
    | (.error e, g1) => (.error e, out0, g1)
    | (.ok A, g1) => visit_animal A out0 g1
  else
    let m := creature.is X mushroom a.2
    if m.1 then
      match creature.as X mushroom m.2 with
      | (.error e, g1) => (.error e, out0, g1)
      | (.ok M, g1) => (.ok .is_mushroom, out0 ++ " - eat this! ... " ++ eat M, g1)
    else (.ok .unknown_creature, out0 ++ " - unknown creature! Sensation!", m.2)

/-- The range-based `for` over the Zoo: it stops at the first exception;
otherwise it returns the branches taken, in order. -/
def zoo_loop : List Obj → String → Globals → Except String (List Branch) × String × Globals
  | [], out, g => (.ok [], out, g)
  | X :: rest, out, g =>
    match zoo_visit X out g with
    | (.error e, out1, g1) => (.error e, out1, g1)
    | (.ok b, out1, g1) =>
      match zoo_loop rest out1 g1 with
      | (.error e, out2, g2) => (.error e, out2, g2)
      | (.ok bs, out2, g2) => (.ok (b :: bs), out2, g2)

/-- The streams `cout` and `cerr`. -/
structure Console where
  cout : String
  cerr : String
  deriving DecidableEq, Repr

/-- The function `main` for a given content of the vector `Zoo`, run from the
state `g`: the exit code, the two streams, and the final state. -/
def main_on (Zoo : List Obj) (g : Globals) : Int × Console × Globals :=
  let h := hierarchy_test "" g
  match zoo_loop Zoo (h.1 ++ "\n Let's check the Zoo:") h.2 with
  | (.error e, out, g1) => (-1, ⟨out, "\n !> Unhandled exception: " ++ e ++ "\n"⟩, g1)
  | (.ok _, out, g1) => (0, ⟨out ++ "\n\n -- Finished successfully --" ++ "\n", ""⟩, g1)

/-- The vector `Zoo` of `main`. -/
def Zoo : List Obj :=
  [cat.mk "Teddy" true, creature.mk, dog.mk "Sultan" 10, cat.mk "Dusty" false,
   mushroom.mk false, dog.mk "Winky" 2, mushroom.mk true]

/-- The function `main` of the program. -/
def main : Int × Console × Globals := main_on Zoo Globals.init

/-- The branch of the Zoo loop that corresponds to a dynamic class: the cat
and dog branches, the mushroom branch, and the last `else` for anything
else. -/
def expected_branch (X : Cls) : Branch :=
  if X = cat then .is_cat
  else if X = dog then .is_dog
  else if X = mushroom then .is_mushroom
  else .unknown_creature

/-! ## Basic facts about the statics -/

theorem lookupStatic_none_iff (X : Cls) (l : List (Cls × class_id)) :
    lookupStatic X l = none ↔ X ∉ l.map Prod.fst := by
  induction l with
  | nil => simp [lookupStatic]
  | cons p rest ih =>
    obtain ⟨Z, c⟩ := p
    by_cases h : Z = X
    · simp [lookupStatic, h]
    · have h2 : ¬ X = Z := fun e => h e.symm
      simp [lookupStatic, h, h2, ih]

theorem lookupStatic_mem (X : Cls) (c : class_id) (l : List (Cls × class_id))
    (h : lookupStatic X l = some c) : X ∈ l.map Prod.fst := by
  by_contra hn
  rw [← lookupStatic_none_iff] at hn
  rw [hn] at h
  cases h

theorem wrap32_add_ne (a : Int) (j k : Nat) (hjk : j < k) (hk : k < j + 4294967296) :
    wrap32 (a + j) ≠ wrap32 (a + k) := by
  unfold wrap32
  omega

theorem wrap32_wrap32_add (a : Int) (k : Int) :
    wrap32 (wrap32 a + k) = wrap32 (a + k) := by
  unfold wrap32
  omega

theorem id_of_lookup (X : Cls) (g : Globals) (c : class_id)
    (h : lookupStatic X g.statics = some c) : Cls.id X g = (c, g) := by
  simp [Cls.id, h]

theorem id_lookup (X : Cls) (g : Globals) :
    lookupStatic X (Cls.id X g).2.statics = some (Cls.id X g).1 := by
  unfold Cls.id
  cases h : lookupStatic X g.statics with
  | some c => simpa using h
  | none => simp [lookupStatic, class_id.ctor]

theorem id_le (X : Cls) (g : Globals) : Globals.le g (Cls.id X g).2 := by
  intro Z c hz
  unfold Cls.id
  cases h : lookupStatic X g.statics with
  | some c2 => simpa using hz
  | none =>
    have hne : ¬ X = Z := by
      intro e
      rw [e, hz] at h
      cases h
    simp [lookupStatic, class_id.ctor, hne, hz]

theorem globals_le_refl (g : Globals) : Globals.le g g := fun _ _ h => h

theorem globals_le_trans {g1 g2 g3 : Globals} (h12 : Globals.le g1 g2)
    (h23 : Globals.le g2 g3) : Globals.le g1 g3 :=
  fun Z c h => h23 Z c (h12 Z c h)

theorem inv_init (U : List Cls) : Inv U Globals.init := by
  constructor <;> simp [Globals.init, lookupStatic]

theorem lookupStatic_cons (Y X : Cls) (c a : class_id) (l : List (Cls × class_id)) :
    lookupStatic Y ((X, c) :: l) = some a ↔
      (X = Y ∧ c = a) ∨ (X ≠ Y ∧ lookupStatic Y l = some a) := by
  by_cases h : X = Y
  · simp [lookupStatic, h]
  · simp [lookupStatic, h]

theorem statics_length_le (U : List Cls) (g : Globals) (h : Inv U g) :
    g.statics.length ≤ U.length := by
  have hs : g.statics.map Prod.fst ⊆ U := fun X hX => h.sub X hX
  have := (List.subperm_of_subset h.nodup hs).length_le
  simpa using this

theorem inv_fresh_step (U : List Cls) (hU : U.length ≤ 4294967296) (g : Globals)
    (h : Inv U g) (X : Cls) (hX : X ∈ U) (hnone : lookupStatic X g.statics = none) :
    Inv U ⟨wrap32 (g.g_last_class_index + 1),
      (X, ⟨X.name, wrap32 (g.g_last_class_index + 1)⟩) :: g.statics⟩ := by
  have hnot : X ∉ g.statics.map Prod.fst := (lookupStatic_none_iff X _).1 hnone
  have hnd : ((X :: g.statics.map Prod.fst)).Nodup := List.nodup_cons.2 ⟨hnot, h.nodup⟩
  have hsub : (X :: g.statics.map Prod.fst) ⊆ U := by
    intro Z hZ
    rcases List.mem_cons.1 hZ with e | hm
    · rw [e]; exact hX
    · exact h.sub Z hm
  have hlen : g.statics.length + 1 ≤ 4294967296 := by
    have := (List.subperm_of_subset hnd hsub).length_le
    simp at this
    omega
  have hold : ∀ Z c, lookupStatic Z g.statics = some c →
      c.m_index ≠ wrap32 (g.g_last_class_index + 1) := by
    intro Z c hz
    have := h.fresh 1 (le_refl 1) hlen Z c hz
    simpa using this
  constructor
  · simpa using hnd
  · intro Z hZ
    exact hsub (by simpa using hZ)
  · intro A B a b ha hb hab
    simp only [lookupStatic_cons] at ha hb
    rcases ha with ⟨e1, e2⟩ | ⟨_, ha⟩ <;> rcases hb with ⟨e3, e4⟩ | ⟨_, hb⟩
    · rw [← e1, ← e3]
    · exfalso
      rw [← e2] at hab
      exact hold B b hb hab.symm
    · exfalso
      rw [← e4] at hab
      exact hold A a ha hab
    · exact h.inj A B a b ha hb hab
  · intro A a ha
    simp only [lookupStatic_cons] at ha
    rcases ha with ⟨e1, e2⟩ | ⟨_, ha⟩
    · rw [← e1, ← e2]
    · exact h.names A a ha
  · intro k hk hkl A a ha
    simp only [lookupStatic_cons] at ha
    simp only [List.length_cons] at hkl
    rw [wrap32_wrap32_add]
    rcases ha with ⟨_, e2⟩ | ⟨_, ha⟩
    · rw [← e2]
      have := wrap32_add_ne g.g_last_class_index 1 (1 + k) (by omega) (by omega)
      simpa [add_assoc] using this
    · have := h.fresh (k + 1) (by omega) (by omega) A a ha
      have e : g.g_last_class_index + 1 + (k : Int) = g.g_last_class_index + ((k + 1 : Nat) : Int) := by
        push_cast
        ring
      rw [e]
      exact this

theorem inv_id (U : List Cls) (hU : U.length ≤ 4294967296) (g : Globals)
    (h : Inv U g) (X : Cls) (hX : X ∈ U) : Inv U (Cls.id X g).2 := by
  unfold Cls.id
  cases hl : lookupStatic X g.statics with
  | some c => simpa using h
  | none => simpa [class_id.ctor] using inv_fresh_step U hU g h X hX hl

theorem eq_iff_of_lookup (U : List Cls) (g : Globals) (h : Inv U g) (X Y : Cls)
    (a b : class_id) (ha : lookupStatic X g.statics = some a)
    (hb : lookupStatic Y g.statics = some b) : a.eq b = decide (X = Y) := by
  by_cases e : X = Y
  · subst e
    rw [ha] at hb
    cases hb
    simp [class_id.eq]
  · have : a.m_index ≠ b.m_index := fun hab => e (h.inj X Y a b ha hb hab)
    simp [class_id.eq, e, this]

theorem inv_requestAll (U : List Cls) (hU : U.length ≤ 4294967296) (calls : List Cls) :
    ∀ g, Inv U g → (∀ X, X ∈ calls → X ∈ U) → Inv U (requestAll calls g) := by
  induction calls with
  | nil => intro g h _; simpa [requestAll] using h
  | cons X rest ih =>
    intro g h hc
    have h1 := inv_id U hU g h X (hc X (List.mem_cons_self _ _))
    have := ih (Cls.id X g).2 h1 (fun Z hZ => hc Z (List.mem_cons_of_mem _ hZ))
    simpa [requestAll] using this

theorem inv_of_reachable (U : List Cls) (hU : U.length ≤ 4294967296) (g : Globals)
    (h : Reachable U g) : Inv U g := by
  obtain ⟨calls, hc, rfl⟩ := h
  exact inv_requestAll U hU calls Globals.init (inv_init U) hc

theorem reachable_id (U : List Cls) (g : Globals) (h : Reachable U g) (X : Cls)
    (hX : X ∈ U) : Reachable U (Cls.id X g).2 := by
  obtain ⟨calls, hc, rfl⟩ := h
  refine ⟨calls ++ [X], ?_, ?_⟩
  · intro Z hZ
    rcases List.mem_append.1 hZ with h1 | h1
    · exact hc Z h1
    · simp at h1
      rw [h1]; exact hX
  · simp [requestAll, List.foldl_append]

/-! ## Specifications of the operations on coherent states -/

theorem chain_self (X : Cls) : X ∈ X.chain := by
  cases X <;> simp [Cls.chain]

theorem id_pair_spec (U : List Cls) (hU : U.length ≤ 4294967296) (g : Globals)
    (h : Inv U g) (X Y : Cls) (hX : X ∈ U) (hY : Y ∈ U) :
    (Cls.id X g).1.eq (Cls.id Y (Cls.id X g).2).1 = decide (X = Y) ∧
      Inv U (Cls.id Y (Cls.id X g).2).2 ∧
      Globals.le g (Cls.id Y (Cls.id X g).2).2 := by
  have h1 := inv_id U hU g h X hX
  have h2 := inv_id U hU _ h1 Y hY
  have l1 := id_le Y (Cls.id X g).2 X _ (id_lookup X g)
  have l2 := id_lookup Y (Cls.id X g).2
  exact ⟨eq_iff_of_lookup U _ h2 X Y _ _ l1 l2, h2,
    globals_le_trans (id_le X g) (id_le Y _)⟩

theorem is_derived_spec (U : List Cls) (hU : U.length ≤ 4294967296) (Y : Cls)
    (hY : Y ∈ U) : ∀ (X : Cls) (g : Globals), Inv U g → (∀ Z, Z ∈ X.chain → Z ∈ U) →
      (is_derived X Y g).1 = decide (Y ∈ X.chain) ∧ Inv U (is_derived X Y g).2 ∧
        Globals.le g (is_derived X Y g).2 := by
  intro X
  induction X with
  | creature =>
    intro g h hc
    obtain ⟨e, hi, hl⟩ := id_pair_spec U hU g h .creature Y (hc _ (chain_self _)) hY
    refine ⟨?_, hi, hl⟩
    simp only [is_derived, e, Cls.chain, List.mem_singleton]
    by_cases hy : Y = Cls.creature
    · simp [hy]
    · have hy2 : ¬ Cls.creature = Y := fun e2 => hy e2.symm
      simp [hy, hy2]
  | derived n base ih =>
    intro g h hc
    obtain ⟨e, hi, hl⟩ := id_pair_spec U hU g h (.derived n base) Y (hc _ (chain_self _)) hY
    have hcb : ∀ Z, Z ∈ base.chain → Z ∈ U := fun Z hZ =>
      hc Z (by simp [Cls.chain, hZ])
    by_cases hy : Cls.derived n base = Y
    · subst hy
      simp only [decide_True] at e
      simp only [is_derived, e, if_true]
      exact ⟨by simp [Cls.chain], hi, hl⟩
    · simp only [hy, decide_False] at e
      obtain ⟨r1, r2, r3⟩ := ih _ hi hcb
      have hy2 : ¬ Y = Cls.derived n base := fun e2 => hy e2.symm
      simp only [is_derived, e, Bool.false_eq_true, if_false]
      refine ⟨?_, r2, globals_le_trans hl r3⟩
      rw [r1]
      simp [Cls.chain, hy2]

theorem who_override_eq (X : Cls) (g : Globals) : who_override X g = Cls.id X g := by
  cases X <;> rfl

theorem is_base_id_spec (U : List Cls) (hU : U.length ≤ 4294967296) (T : Cls)
    (t : class_id) : ∀ (X : Cls) (g : Globals), Inv U g → (∀ Z, Z ∈ X.chain → Z ∈ U) →
      lookupStatic T g.statics = some t →
      (is_base_id_override X t g).1 = decide (T ∈ X.chain) ∧
        Inv U (is_base_id_override X t g).2 ∧
        Globals.le g (is_base_id_override X t g).2 := by
  intro X
  induction X with
  | creature =>
    intro g h hc ht
    have h1 := inv_id U hU g h .creature (hc _ (chain_self _))
    have e := eq_iff_of_lookup U _ h1 T .creature t _ (id_le .creature g T t ht) (id_lookup _ g)
    refine ⟨?_, h1, id_le _ g⟩
    simp [is_base_id_override, e, Cls.chain]
  | derived n base ih =>
    intro g h hc ht
    have h1 := inv_id U hU g h (.derived n base) (hc _ (chain_self _))
    have ht1 := id_le (.derived n base) g T t ht
    have e := eq_iff_of_lookup U _ h1 T (.derived n base) t _ ht1 (id_lookup _ g)
    have hcb : ∀ Z, Z ∈ base.chain → Z ∈ U := fun Z hZ =>
      hc Z (by simp [Cls.chain, hZ])
    by_cases hy : T = Cls.derived n base
    · simp only [hy, decide_True] at e
      simp only [is_base_id_override, e, if_true]
      refine ⟨?_, h1, id_le _ g⟩
      simp [hy, Cls.chain]
    · simp only [hy, decide_False] at e
      obtain ⟨r1, r2, r3⟩ := ih _ h1 hcb ht1
      simp only [is_base_id_override, e, Bool.false_eq_true, if_false]
      refine ⟨?_, r2, globals_le_trans (id_le _ g) r3⟩
      rw [r1]
      simp [Cls.chain, hy]

theorem is_spec (U : List Cls) (hU : U.length ≤ 4294967296) (self : Obj) (T : Cls)
    (g : Globals) (h : Inv U g) (hc : ∀ Z, Z ∈ self.dyn.chain → Z ∈ U) (hT : T ∈ U) :
    (creature.is self T g).1 = decide (T ∈ self.dyn.chain) ∧
      Inv U (creature.is self T g).2 ∧ Globals.le g (creature.is self T g).2 := by
  have h1 := inv_id U hU g h T hT
  obtain ⟨r1, r2, r3⟩ := is_base_id_spec U hU T _ self.dyn _ h1 hc (id_lookup T g)
  by_cases hm : T ∈ self.dyn.chain
  · simp only [hm, decide_True] at r1
    simp only [creature.is, creature.is_base_id, r1, if_true, hm, decide_True]
    exact ⟨trivial, r2, globals_le_trans (id_le T g) r3⟩
  · simp only [hm, decide_False] at r1
    have hne : ¬ T = self.dyn := fun e => hm (e ▸ chain_self _)
    obtain ⟨e, hi, hl⟩ := id_pair_spec U hU _ r2 T self.dyn hT (hc _ (chain_self _))
    simp only [creature.is, creature.is_base_id, r1, Bool.false_eq_true, if_false, hm,
      decide_False, creature.who, who_override_eq]
    refine ⟨?_, hi, globals_le_trans (id_le T g) (globals_le_trans r3 hl)⟩
    rw [e]
    simp [hne]

/-! ## Ancestor chains -/

theorem chain_depth (Z : Cls) : ∀ X : Cls, Z ∈ X.chain →
    Z.depth ≤ X.depth ∧ (Z.depth = X.depth → Z = X) := by
  intro X
  induction X with
  | creature =>
    intro h
    simp only [Cls.chain, List.mem_singleton] at h
    subst h
    exact ⟨Nat.le_refl _, fun _ => rfl⟩
  | derived n base ih =>
    intro h
    simp only [Cls.chain, List.mem_cons] at h
    rcases h with h | h
    · subst h
      exact ⟨Nat.le_refl _, fun _ => rfl⟩
    · have := (ih h).1
      simp only [Cls.depth]
      exact ⟨by omega, fun e => by omega⟩

theorem chain_antisymm (X Y : Cls) (h1 : X ∈ Y.chain) (h2 : Y ∈ X.chain) : X = Y := by
  have a := chain_depth X Y h1
  have b := chain_depth Y X h2
  exact a.2 (by omega)

theorem chain_trans (X Y Z : Cls) (h1 : Z ∈ Y.chain) : Y ∈ X.chain → Z ∈ X.chain := by
  induction X with
  | creature =>
    intro h
    simp only [Cls.chain, List.mem_singleton] at h
    subst h
    exact h1
  | derived n base ih =>
    intro h
    simp only [Cls.chain, List.mem_cons] at h
    rcases h with h | h
    · subst h
      exact h1
    · simp only [Cls.chain, List.mem_cons]
      exact Or.inr (ih h)

theorem chain_nodup (X : Cls) : X.chain.Nodup := by
  induction X with
  | creature => simp [Cls.chain]
  | derived n base ih =>
    simp only [Cls.chain, List.nodup_cons]
    refine ⟨fun h => ?_, ih⟩
    have := (chain_depth _ _ h).1
    simp only [Cls.depth] at this
    omega

theorem chain_getLast (X : Cls) : X.chain.getLast? = some Cls.creature := by
  induction X with
  | creature => simp [Cls.chain]
  | derived n base ih =>
    cases hb : base.chain with
    | nil => rw [hb] at ih; simp at ih
    | cons z zs =>
      rw [hb] at ih
      simp only [Cls.chain, hb]
      rw [List.getLast?_cons_cons]
      exact ih

theorem is_derived_traced_snd (Y : Cls) : ∀ (X : Cls) (g : Globals),
    (is_derived_traced X Y g).2 = is_derived X Y g := by
  intro X
  induction X with
  | creature => intro g; rfl
  | derived n base ih =>
    intro g
    simp only [is_derived_traced, is_derived]
    split
    · rfl
    · exact ih _

theorem is_derived_traced_fst (U : List Cls) (hU : U.length ≤ 4294967296) (Y : Cls)
    (hY : Y ∈ U) : ∀ (X : Cls) (g : Globals), Inv U g → (∀ Z, Z ∈ X.chain → Z ∈ U) →
      Y ∉ X.chain → (is_derived_traced X Y g).1 = X.chain := by
  intro X
  induction X with
  | creature => intro g _ _ _; rfl
  | derived n base ih =>
    intro g h hc hn
    obtain ⟨e, hi, _⟩ := id_pair_spec U hU g h (.derived n base) Y (hc _ (chain_self _)) hY
    have hy : ¬ Cls.derived n base = Y := fun e2 => hn (e2 ▸ chain_self _)
    have hnb : Y ∉ base.chain := fun hm => hn (by simp [Cls.chain, hm])
    have hcb : ∀ Z, Z ∈ base.chain → Z ∈ U := fun Z hZ =>
      hc Z (by simp [Cls.chain, hZ])
    simp only [hy, decide_False] at e
    simp only [is_derived_traced, e, Bool.false_eq_true, if_false, Cls.chain]
    rw [ih _ hi hcb hnb]

/-! ## Operations on states whose identities are already initialised -/

theorem id_unchanged (X : Cls) (g : Globals)
    (h : (lookupStatic X g.statics).isSome = true) : (Cls.id X g).2 = g := by
  obtain ⟨c, hc⟩ := Option.isSome_iff_exists.1 h
  rw [id_of_lookup X g c hc]

theorem is_base_id_unchanged (t : class_id) (g : Globals) : ∀ X : Cls,
    (∀ Z, Z ∈ X.chain → (lookupStatic Z g.statics).isSome = true) →
      (is_base_id_override X t g).2 = g := by
  intro X
  induction X with
  | creature =>
    intro h
    simp only [is_base_id_override]
    exact id_unchanged _ g (h _ (chain_self _))
  | derived n base ih =>
    intro h
    have h1 := id_unchanged _ g (h _ (chain_self (.derived n base)))
    simp only [is_base_id_override, h1]
    split
    · rfl
    · exact ih (fun Z hZ => h Z (by simp [Cls.chain, hZ]))

theorem is_unchanged (self : Obj) (T : Cls) (g : Globals)
    (hT : (lookupStatic T g.statics).isSome = true)
    (h : ∀ Z, Z ∈ self.dyn.chain → (lookupStatic Z g.statics).isSome = true) :
    (creature.is self T g).2 = g := by
  have h1 := id_unchanged T g hT
  have h2 := is_base_id_unchanged (Cls.id T g).1 g self.dyn h
  have h3 := id_unchanged self.dyn g (h _ (chain_self _))
  simp only [creature.is, creature.is_base_id, creature.who, who_override_eq, h1, h2]
  split
  · rfl
  · simp only [h1, h3]

theorem requestAll_le (calls : List Cls) : ∀ g : Globals,
    Globals.le g (requestAll calls g) := by
  induction calls with
  | nil => intro g; exact globals_le_refl g
  | cons X rest ih =>
    intro g
    have := ih (Cls.id X g).2
    exact globals_le_trans (id_le X g) (by simpa [requestAll] using this)

theorem registered_length : registered.length ≤ 4294967296 := by decide

theorem registered_chain (X : Cls) (hX : X ∈ registered) :
    ∀ Z, Z ∈ X.chain → Z ∈ registered := by
  simp only [registered, List.mem_cons, List.mem_singleton, List.not_mem_nil, or_false] at hX
  rcases hX with h | h | h | h | h <;> subst h <;> decide

theorem reachable_init (U : List Cls) : Reachable U Globals.init :=
  ⟨[], fun _ h => absurd h (List.not_mem_nil _), rfl⟩

theorem inv_registered (g : Globals) (hg : Reachable registered g) : Inv registered g :=
  inv_of_reachable registered registered_length g hg

theorem assert_is_eq (self : Obj) (T : Cls) (g : Globals) :
    creature.assert_is self T g =
      (if (creature.is self T g).1 then Except.ok () else Except.error TypeMismatch,
        (creature.is self T g).2) := by
  simp only [creature.assert_is]
  cases h : (creature.is self T g).1 <;> simp

theorem as_eq (self : Obj) (T : Cls) (g : Globals) :
    creature.as self T g =
      (if (creature.is self T g).1 then Except.ok ⟨T, self⟩ else Except.error TypeMismatch,
        (creature.is self T g).2) := by
  unfold creature.as
  rw [assert_is_eq]
  cases h : (creature.is self T g).1 <;> simp

theorem as_const_eq (self : Obj) (T : Cls) (g : Globals) :
    creature.as_const self T g =
      (if (creature.is self T g).1 then Except.ok ⟨T, self⟩ else Except.error TypeMismatch,
        (creature.is self T g).2) := by
  unfold creature.as_const
  rw [assert_is_eq]
  cases h : (creature.is self T g).1 <;> simp

theorem constructAll_counter (names : List String) : ∀ (g : Globals) (k : Int),
    wrap32 ((constructAll names g).g_last_class_index + k) =
      wrap32 (g.g_last_class_index + names.length + k) := by
  induction names with
  | nil => intro g k; simp [constructAll]
  | cons n rest ih =>
    intro g k
    have h := ih (class_id.ctor n g).2 k
    have e : constructAll (n :: rest) g = constructAll rest (class_id.ctor n g).2 := rfl
    rw [e, h]
    simp only [class_id.ctor, List.length_cons]
    rw [add_assoc, wrap32_wrap32_add]
    congr 1
    push_cast
    ring

/-! ## Program states are closed under the operations -/

theorem reachable_is_derived (U : List Cls) (Y : Cls) (hY : Y ∈ U) :
    ∀ (X : Cls) (g : Globals), Reachable U g → (∀ Z, Z ∈ X.chain → Z ∈ U) →
      Reachable U (is_derived X Y g).2 := by
  intro X
  induction X with
  | creature =>
    intro g hg hc
    exact reachable_id U _ (reachable_id U g hg _ (hc _ (chain_self _))) Y hY
  | derived n base ih =>
    intro g hg hc
    have h2 := reachable_id U _ (reachable_id U g hg _ (hc _ (chain_self _))) Y hY
    simp only [is_derived]
    split
    · exact h2
    · exact ih _ h2 (fun Z hZ => hc Z (by simp [Cls.chain, hZ]))

theorem reachable_is_base_id (U : List Cls) (t : class_id) :
    ∀ (X : Cls) (g : Globals), Reachable U g → (∀ Z, Z ∈ X.chain → Z ∈ U) →
      Reachable U (is_base_id_override X t g).2 := by
  intro X
  induction X with
  | creature =>
    intro g hg hc
    exact reachable_id U g hg _ (hc _ (chain_self _))
  | derived n base ih =>
    intro g hg hc
    have h1 := reachable_id U g hg _ (hc _ (chain_self (.derived n base)))
    simp only [is_base_id_override]
    split
    · exact h1
    · exact ih _ h1 (fun Z hZ => hc Z (by simp [Cls.chain, hZ]))

theorem reachable_is (U : List Cls) (self : Obj) (T : Cls) (hT : T ∈ U) (g : Globals)
    (hg : Reachable U g) (hc : ∀ Z, Z ∈ self.dyn.chain → Z ∈ U) :
    Reachable U (creature.is self T g).2 := by
  have h1 := reachable_id U g hg T hT
  have h2 := reachable_is_base_id U (Cls.id T g).1 self.dyn _ h1 hc
  simp only [creature.is, creature.is_base_id, creature.who, who_override_eq]
  split
  · exact h2
  · exact reachable_id U _ (reachable_id U _ h2 T hT) _ (hc _ (chain_self _))

theorem reachable_as (U : List Cls) (self : Obj) (T : Cls) (hT : T ∈ U) (g : Globals)
    (hg : Reachable U g) (hc : ∀ Z, Z ∈ self.dyn.chain → Z ∈ U) :
    Reachable U (creature.assert_is self T g).2 ∧ Reachable U (creature.as self T g).2 ∧
      Reachable U (creature.as_const self T g).2 := by
  rw [assert_is_eq, as_eq, as_const_eq]
  exact ⟨reachable_is U self T hT g hg hc, reachable_is U self T hT g hg hc,
    reachable_is U self T hT g hg hc⟩

/-! ## The dynamic test and the second clause of `is` -/

theorem is_base_id_le (t : class_id) : ∀ (X : Cls) (g : Globals),
    Globals.le g (is_base_id_override X t g).2 := by
  intro X
  induction X with
  | creature => intro g; exact id_le Cls.creature g
  | derived n base ih =>
    intro g
    simp only [is_base_id_override]
    split
    · exact id_le _ g
    · exact globals_le_trans (id_le (Cls.derived n base) g) (ih _)

theorem is_base_id_self_init (t : class_id) (X : Cls) (g : Globals) :
    ∃ c, lookupStatic X (is_base_id_override X t g).2.statics = some c := by
  cases X with
  | creature => exact ⟨_, id_lookup Cls.creature g⟩
  | derived n base =>
    simp only [is_base_id_override]
    split
    · exact ⟨_, id_lookup _ g⟩
    · exact ⟨_, is_base_id_le t base _ _ _ (id_lookup (Cls.derived n base) g)⟩

theorem is_state_eq (self : Obj) (T : Cls) (g : Globals) :
    (creature.is self T g).2 =
      (creature.is_base_id self (Cls.id T g).1 (Cls.id T g).2).2 := by
  obtain ⟨c, hc⟩ := is_base_id_self_init (Cls.id T g).1 self.dyn (Cls.id T g).2
  have hT := is_base_id_le (Cls.id T g).1 self.dyn (Cls.id T g).2 T _ (id_lookup T g)
  simp only [creature.is, creature.is_base_id, creature.who, who_override_eq]
  split
  · rfl
  · rw [id_of_lookup T _ _ hT, id_of_lookup self.dyn _ _ hc]

theorem is_base_id_result (g : Globals) (hg : Reachable registered g) (self : Obj)
    (hX : self.dyn ∈ registered) (T : Cls) (hT : T ∈ registered) :
    (creature.is_base_id self (Cls.id T g).1 (Cls.id T g).2).1 =
      decide (T ∈ self.dyn.chain) :=
  (is_base_id_spec registered registered_length T _ self.dyn _
    (inv_id registered registered_length g (inv_registered g hg) T hT)
    (registered_chain _ hX) (id_lookup T g)).1

theorem is_result (g : Globals) (hg : Reachable registered g) (self : Obj)
    (hX : self.dyn ∈ registered) (T : Cls) (hT : T ∈ registered) :
    (creature.is self T g).1 = decide (T ∈ self.dyn.chain) :=
  (is_spec registered registered_length self T g (inv_registered g hg)
    (registered_chain _ hX) hT).1

theorem is_derived_result (g : Globals) (hg : Reachable registered g) (X Y : Cls)
    (hX : X ∈ registered) (hY : Y ∈ registered) :
    (is_derived X Y g).1 = decide (Y ∈ X.chain) :=
  (is_derived_spec registered registered_length Y hY X g (inv_registered g hg)
    (registered_chain X hX)).1

/-! ## Sequences of constructions -/

theorem ctor_after_index (n : String) (names : List String) (g : Globals) :
    (class_id.ctor n (constructAll names g)).1.m_index =
      wrap32 (g.g_last_class_index + names.length + 1) :=
  constructAll_counter names g 1

theorem wrap32_of_range (x : Int) (h1 : -2147483648 ≤ x) (h2 : x < 2147483648) :
    wrap32 x = x := by
  unfold wrap32
  omega

theorem constructTokens_index (names : List String) : ∀ g : Globals,
    -2147483648 ≤ g.g_last_class_index →
    g.g_last_class_index + names.length < 2147483648 →
    (constructTokens names g).map class_id.index =
      (List.range names.length).map
        (fun (i : Nat) => g.g_last_class_index + (i : Int) + 1) := by
  induction names with
  | nil => intro g _ _; rfl
  | cons n rest ih =>
    intro g h1 h2
    simp only [List.length_cons, Nat.cast_add, Nat.cast_one] at h2
    have hw : wrap32 (g.g_last_class_index + 1) = g.g_last_class_index + 1 :=
      wrap32_of_range _ (by omega) (by omega)
    have hi := ih (class_id.ctor n g).2 (by simp only [class_id.ctor, hw]; omega)
      (by simp only [class_id.ctor, hw]; omega)
    simp only [constructTokens, List.map_cons, List.length_cons, List.range_succ_eq_map,
      List.map_map, hi]
    refine congrArg₂ _ ?_ ?_
    · simp [class_id.index, class_id.ctor, hw]
    · apply List.map_congr_left
      intro i _
      simp only [class_id.ctor, hw, Function.comp, Nat.succ_eq_add_one, Nat.cast_add,
        Nat.cast_one]
      ring

theorem constructTokens_mem (names : List String) : ∀ (g : Globals) (t : class_id),
    t ∈ constructTokens names g →
    ∃ i : Nat, i < names.length ∧ t.m_index = wrap32 (g.g_last_class_index + (i + 1 : Nat)) := by
  induction names with
  | nil => intro g t h; simp [constructTokens] at h
  | cons n rest ih =>
    intro g t h
    simp only [constructTokens, List.mem_cons] at h
    rcases h with h | h
    · exact ⟨0, by simp, by rw [h]; simp [class_id.ctor]⟩
    · obtain ⟨i, hi, e⟩ := ih _ t h
      refine ⟨i + 1, by simpa using hi, ?_⟩
      rw [e]
      simp only [class_id.ctor, wrap32_wrap32_add]
      congr 1
      push_cast
      ring

theorem constructTokens_distinct (names : List String) : ∀ g : Globals,
    names.length ≤ 4294967296 →
    (constructTokens names g).Pairwise (fun a b => a.eq b = false) := by
  induction names with
  | nil => intro g _; simp [constructTokens]
  | cons n rest ih =>
    intro g hl
    simp only [List.length_cons] at hl
    simp only [constructTokens, List.pairwise_cons]
    refine ⟨?_, ih _ (by omega)⟩
    intro t ht
    obtain ⟨i, hi, e⟩ := constructTokens_mem rest _ t ht
    have hne := wrap32_add_ne g.g_last_class_index 1 (i + 2) (by omega) (by omega)
    simp only [class_id.eq, decide_eq_false_iff_not, e]
    simp only [class_id.ctor, wrap32_wrap32_add]
    have e2 : g.g_last_class_index + 1 + ((i + 1 : Nat) : Int) =
        g.g_last_class_index + ((i + 2 : Nat) : Int) := by
      push_cast
      ring
    rw [e2]
    simpa using hne

theorem eq_of_index (a b : class_id) (h : a.index = b.index) : a.eq b = true := by
  simpa [class_id.eq, class_id.index] using h

theorem ctor_index_after_length (n : String) (names : List String) (g : Globals)
    (k : Nat) (h : names.length = k) :
    (class_id.ctor n (constructAll names g)).1.index =
      wrap32 (g.g_last_class_index + k + 1) := by
  rw [← h]
  exact ctor_after_index n names g

/-! ## The order of first requests -/

theorem requestAll_first_use : ∀ (calls : List Cls) (g : Globals), calls.Nodup →
    (∀ X, X ∈ calls → lookupStatic X g.statics = none) →
    ∀ X, X ∈ calls → lookupStatic X (requestAll calls g).statics =
      some ⟨X.name, wrap32 (g.g_last_class_index + ((calls.indexOf X + 1 : Nat) : Int))⟩ := by
  intro calls
  induction calls with
  | nil => intro g _ _ X hX; simp at hX
  | cons Z rest ih =>
    intro g hnd hnone X hX
    obtain ⟨hZ, hrest⟩ := List.nodup_cons.1 hnd
    have hZn := hnone Z (List.mem_cons_self _ _)
    have hid : Cls.id Z g = (⟨Z.name, wrap32 (g.g_last_class_index + 1)⟩,
        ⟨wrap32 (g.g_last_class_index + 1),
          (Z, ⟨Z.name, wrap32 (g.g_last_class_index + 1)⟩) :: g.statics⟩) := by
      simp [Cls.id, hZn, class_id.ctor]
    have hstep : requestAll (Z :: rest) g = requestAll rest (Cls.id Z g).2 := rfl
    rw [hstep]
    by_cases hXZ : X = Z
    · subst hXZ
      have hl := requestAll_le rest (Cls.id X g).2 X _ (id_lookup X g)
      rw [hl, hid, List.indexOf_cons_self]
      simp
    · have hXr : X ∈ rest := by
        rcases List.mem_cons.1 hX with h | h
        · exact absurd h hXZ
        · exact h
      have hnone2 : ∀ W, W ∈ rest → lookupStatic W (Cls.id Z g).2.statics = none := by
        intro W hW
        have hne : ¬ Z = W := fun e => hZ (e ▸ hW)
        rw [hid]
        simp [lookupStatic, hne, hnone W (List.mem_cons_of_mem _ hW)]
      rw [ih _ hrest hnone2 X hXr, hid, List.indexOf_cons_ne _ (fun e => hXZ e.symm)]
      simp only [wrap32_wrap32_add]
      have e3 : g.g_last_class_index + 1 + ((List.indexOf X rest + 1 : Nat) : Int) =
          g.g_last_class_index + (((List.indexOf X rest).succ + 1 : Nat) : Int) := by
        push_cast [Nat.succ_eq_add_one]
        ring
      rw [e3]

theorem registered_nodup : registered.Nodup := by decide

theorem reachable_of_perm (p : List Cls) (hp : p.Perm registered) :
    Reachable registered (requestAll p Globals.init) :=
  ⟨p, fun _ hX => hp.mem_iff.1 hX, rfl⟩

theorem index_after_first_requests (p : List Cls) (hp : p.Perm registered) (X : Cls)
    (hX : X ∈ registered) :
    (Cls.id X (requestAll p Globals.init)).1.index = ((p.indexOf X + 1 : Nat) : Int) := by
  have hXp : X ∈ p := hp.mem_iff.2 hX
  have hl := requestAll_first_use p Globals.init (hp.nodup_iff.2 registered_nodup)
    (fun _ _ => rfl) X hXp
  rw [id_of_lookup X _ _ hl]
  have hlt : p.indexOf X < 5 := by
    have := List.indexOf_lt_length.2 hXp
    rw [hp.length_eq] at this
    exact this
  have e : wrap32 (Globals.init.g_last_class_index + ((p.indexOf X + 1 : Nat) : Int)) =
      ((p.indexOf X + 1 : Nat) : Int) := by
    have h0 : Globals.init.g_last_class_index = 0 := rfl
    rw [h0, zero_add]
    apply wrap32_of_range
    · omega
    · omega
  have f : ∀ (a : class_id) (b : Globals), (a, b).1.index = a.m_index := fun _ _ => rfl
  rw [f]
  rw [e]

/-! ## The Zoo traversal -/

theorem is_step_true (g : Globals) (hg : Reachable registered g) (X : Obj)
    (hX : X.dyn ∈ registered) (T : Cls) (hT : T ∈ registered) (hm : T ∈ X.dyn.chain) :
    (creature.is X T g).1 = true ∧ Reachable registered (creature.is X T g).2 := by
  refine ⟨?_, reachable_is registered X T hT g hg (registered_chain _ hX)⟩
  rw [is_result g hg X hX T hT]
  exact decide_eq_true hm

theorem is_step_false (g : Globals) (hg : Reachable registered g) (X : Obj)
    (hX : X.dyn ∈ registered) (T : Cls) (hT : T ∈ registered) (hm : T ∉ X.dyn.chain) :
    (creature.is X T g).1 = false ∧ Reachable registered (creature.is X T g).2 := by
  refine ⟨?_, reachable_is registered X T hT g hg (registered_chain _ hX)⟩
  rw [is_result g hg X hX T hT]
  exact decide_eq_false hm

theorem reachable_who (g : Globals) (hg : Reachable registered g) (X : Obj)
    (hX : X.dyn ∈ registered) : Reachable registered (creature.who X g).2 := by
  have : creature.who X g = Cls.id X.dyn g := who_override_eq X.dyn g
  rw [this]
  exact reachable_id registered g hg X.dyn hX

theorem visit_animal_cat (A : Ref) (hd : A.target.dyn = cat) (out : String)
    (g : Globals) (hg : Reachable registered g) :
    (visit_animal A out g).1 = Except.ok Branch.is_cat ∧
      Reachable registered (visit_animal A out g).2.2 := by
  have hX : A.target.dyn ∈ registered := by rw [hd]; decide
  have hm : cat ∈ A.target.dyn.chain := by rw [hd]; decide
  obtain ⟨e1, r1⟩ := is_step_true g hg A.target hX cat (by decide) hm
  obtain ⟨e2, r2⟩ := is_step_true _ r1 A.target hX cat (by decide) hm
  simp only [visit_animal, e1, as_const_eq, e2, if_true]
  exact ⟨trivial, r2⟩

theorem visit_animal_dog (A : Ref) (hd : A.target.dyn = dog) (out : String)
    (g : Globals) (hg : Reachable registered g) :
    (visit_animal A out g).1 = Except.ok Branch.is_dog ∧
      Reachable registered (visit_animal A out g).2.2 := by
  have hX : A.target.dyn ∈ registered := by rw [hd]; decide
  have hn : cat ∉ A.target.dyn.chain := by rw [hd]; decide
  have hm : dog ∈ A.target.dyn.chain := by rw [hd]; decide
  obtain ⟨e1, r1⟩ := is_step_false g hg A.target hX cat (by decide) hn
  obtain ⟨e2, r2⟩ := is_step_true _ r1 A.target hX dog (by decide) hm
  obtain ⟨e3, r3⟩ := is_step_true _ r2 A.target hX dog (by decide) hm
  simp only [visit_animal, e1, e2, as_const_eq, e3, if_true, Bool.false_eq_true, if_false]
  exact ⟨trivial, r3⟩

theorem zoo_visit_spec (X : Obj) (hX : X.dyn ∈ [cat, dog, mushroom, Cls.creature])
    (out : String) (g : Globals) (hg : Reachable registered g) :
    (zoo_visit X out g).1 = Except.ok (expected_branch X.dyn) ∧
      Reachable registered (zoo_visit X out g).2.2 := by
  have r0 : Reachable registered (creature.who X g).2 :=
    reachable_who g hg X (by
      simp only [List.mem_cons, List.mem_singleton, List.not_mem_nil, or_false] at hX
      rcases hX with h | h | h | h <;> rw [h] <;> decide)
  simp only [List.mem_cons, List.mem_singleton, List.not_mem_nil, or_false] at hX
  rcases hX with hd | hd | hd | hd
  · have hR : X.dyn ∈ registered := by rw [hd]; decide
    have hm : animal ∈ X.dyn.chain := by rw [hd]; decide
    obtain ⟨e1, r1⟩ := is_step_true _ r0 X hR animal (by decide) hm
    obtain ⟨e2, r2⟩ := is_step_true _ r1 X hR animal (by decide) hm
    have hv := visit_animal_cat ⟨animal, X⟩ hd
      (out ++ "\n > " ++ (creature.who X g).1.name) _ r2
    simp only [zoo_visit, e1, as_eq, e2, if_true]
    rw [hd]
    exact hv
  · have hR : X.dyn ∈ registered := by rw [hd]; decide
    have hm : animal ∈ X.dyn.chain := by rw [hd]; decide
    obtain ⟨e1, r1⟩ := is_step_true _ r0 X hR animal (by decide) hm
    obtain ⟨e2, r2⟩ := is_step_true _ r1 X hR animal (by decide) hm
    have hv := visit_animal_dog ⟨animal, X⟩ hd
      (out ++ "\n > " ++ (creature.who X g).1.name) _ r2
    simp only [zoo_visit, e1, as_eq, e2, if_true]
    rw [hd]
    exact hv
  · have hR : X.dyn ∈ registered := by rw [hd]; decide
    have hn : animal ∉ X.dyn.chain := by rw [hd]; decide
    have hm : mushroom ∈ X.dyn.chain := by rw [hd]; decide
    obtain ⟨e1, r1⟩ := is_step_false _ r0 X hR animal (by decide) hn
    obtain ⟨e2, r2⟩ := is_step_true _ r1 X hR mushroom (by decide) hm
    obtain ⟨e3, r3⟩ := is_step_true _ r2 X hR mushroom (by decide) hm
    simp only [zoo_visit, e1, e2, as_eq, e3, if_true, Bool.false_eq_true, if_false]
    rw [hd]
    exact ⟨rfl, r3⟩
  · have hR : X.dyn ∈ registered := by rw [hd]; decide
    have hn : animal ∉ X.dyn.chain := by rw [hd]; decide
    have hn2 : mushroom ∉ X.dyn.chain := by rw [hd]; decide
    obtain ⟨e1, r1⟩ := is_step_false _ r0 X hR animal (by decide) hn
    obtain ⟨e2, r2⟩ := is_step_false _ r1 X hR mushroom (by decide) hn2
    simp only [zoo_visit, e1, e2, Bool.false_eq_true, if_false]
    rw [hd]
    exact ⟨rfl, r2⟩

theorem zoo_loop_spec : ∀ (Zoo : List Obj),
    (∀ X, X ∈ Zoo → X.dyn ∈ [cat, dog, mushroom, Cls.creature]) →
    ∀ (out : String) (g : Globals), Reachable registered g →
      (zoo_loop Zoo out g).1 = Except.ok (Zoo.map (fun X => expected_branch X.dyn)) ∧
        Reachable registered (zoo_loop Zoo out g).2.2 := by
  intro Zoo
  induction Zoo with
  | nil => intro _ out g hg; exact ⟨rfl, hg⟩
  | cons X rest ih =>
    intro hz out g hg
    obtain ⟨e1, r1⟩ := zoo_visit_spec X (hz X (List.mem_cons_self _ _)) out g hg
    obtain ⟨e2, r2⟩ := ih (fun Y hY => hz Y (List.mem_cons_of_mem _ hY))
      (zoo_visit X out g).2.1 (zoo_visit X out g).2.2 r1
    have p1 : zoo_visit X out g =
        (Except.ok (expected_branch X.dyn), (zoo_visit X out g).2.1,
          (zoo_visit X out g).2.2) := by
      rw [← e1]
    have p2 : zoo_loop rest (zoo_visit X out g).2.1 (zoo_visit X out g).2.2 =
        (Except.ok (rest.map (fun X => expected_branch X.dyn)),
          (zoo_loop rest (zoo_visit X out g).2.1 (zoo_visit X out g).2.2).2.1,
          (zoo_loop rest (zoo_visit X out g).2.1 (zoo_visit X out g).2.2).2.2) := by
      rw [← e2]
    have hstep : zoo_loop (X :: rest) out g =
        (Except.ok (expected_branch X.dyn :: rest.map (fun X => expected_branch X.dyn)),
          (zoo_loop rest (zoo_visit X out g).2.1 (zoo_visit X out g).2.2).2.1,
          (zoo_loop rest (zoo_visit X out g).2.1 (zoo_visit X out g).2.2).2.2) := by
      rw [zoo_loop, p1]
      simp only []
      rw [p2]
    rw [hstep]
    exact ⟨rfl, r2⟩

theorem reachable_queries : ∀ (qs : List (String × Cls × Cls)),
    (∀ q, q ∈ qs → q.2.1 ∈ registered ∧ q.2.2 ∈ registered) →
    ∀ s : String × Globals, Reachable registered s.2 →
      Reachable registered (qs.foldl
        (fun s q => (s.1 ++ q.1 ++ boolalpha (is_derived q.2.1 q.2.2 s.2).1,
          (is_derived q.2.1 q.2.2 s.2).2)) s).2 := by
  intro qs
  induction qs with
  | nil => intro _ s hs; exact hs
  | cons q rest ih =>
    intro hq s hs
    simp only [List.foldl_cons]
    apply ih (fun q2 h2 => hq q2 (List.mem_cons_of_mem _ h2))
    exact reachable_is_derived registered q.2.2 (hq q (List.mem_cons_self _ _)).2 q.2.1 s.2
      hs (registered_chain _ (hq q (List.mem_cons_self _ _)).1)

theorem reachable_hierarchy_test (out : String) (g : Globals)
    (hg : Reachable registered g) : Reachable registered (hierarchy_test out g).2 := by
  have hq : ∀ q, q ∈ hierarchy_queries → q.2.1 ∈ registered ∧ q.2.2 ∈ registered := by
    intro q hq
    simp only [hierarchy_queries, List.mem_cons, List.mem_singleton, List.not_mem_nil,
      or_false] at hq
    rcases hq with h | h | h | h | h | h | h | h | h | h | h | h | h | h | h | h <;>
      subst h <;> exact ⟨by decide, by decide⟩
  simp only [hierarchy_test]
  exact reachable_queries hierarchy_queries hq
    (out ++ "\n Time to test hierarchy of classes:", g) hg

theorem expected_branch_ne (X : Cls) : expected_branch X ≠ Branch.unknown_beast := by
  unfold expected_branch
  split
  · exact fun h => Branch.noConfusion h
  · split
    · exact fun h => Branch.noConfusion h
    · split
      · exact fun h => Branch.noConfusion h
      · exact fun h => Branch.noConfusion h

theorem main_on_ok (Zoo : List Obj)
    (hz : ∀ X, X ∈ Zoo → X.dyn ∈ [cat, dog, mushroom, Cls.creature]) (g : Globals)
    (hg : Reachable registered g) :
    (main_on Zoo g).1 = 0 ∧ (main_on Zoo g).2.1.cerr = "" := by
  have hl := (zoo_loop_spec Zoo hz ((hierarchy_test "" g).1 ++ "\n Let's check the Zoo:")
    (hierarchy_test "" g).2 (reachable_hierarchy_test "" g hg)).1
  have p : zoo_loop Zoo ((hierarchy_test "" g).1 ++ "\n Let's check the Zoo:")
      (hierarchy_test "" g).2 =
      (Except.ok (Zoo.map (fun X => expected_branch X.dyn)),
        (zoo_loop Zoo ((hierarchy_test "" g).1 ++ "\n Let's check the Zoo:")
          (hierarchy_test "" g).2).2.1,
        (zoo_loop Zoo ((hierarchy_test "" g).1 ++ "\n Let's check the Zoo:")
          (hierarchy_test "" g).2).2.2) := by
    rw [← hl]
  have hm : main_on Zoo g = (0,
      ⟨(zoo_loop Zoo ((hierarchy_test "" g).1 ++ "\n Let's check the Zoo:")
          (hierarchy_test "" g).2).2.1 ++ "\n\n -- Finished successfully --" ++ "\n", ""⟩,
      (zoo_loop Zoo ((hierarchy_test "" g).1 ++ "\n Let's check the Zoo:")
          (hierarchy_test "" g).2).2.2) := by
    rw [main_on, p]
  rw [hm]
  exact ⟨rfl, rfl⟩

/-! ## The claims -/

/-- C1 (narrowing soundness). In every program state, for every object whose
dynamic class `X` is one of the registered classes and every registered class
`S`, both overloads of `as<S>()` return normally exactly when `S` is on the
ancestor chain of `X`; a returned reference has static type `S` and refers to
the very same object, data members included; when `S` is not on the chain the
call throws the `runtime_error` and yields no reference. -/
theorem as_narrowing_sound (g : Globals) (hg : Reachable registered g) (self : Obj)
    (hX : self.dyn ∈ registered) (S : Cls) (hS : S ∈ registered) :
    (((∃ r, (creature.as self S g).1 = Except.ok r) ↔ S ∈ self.dyn.chain) ∧
      ((∃ r, (creature.as_const self S g).1 = Except.ok r) ↔ S ∈ self.dyn.chain)) ∧
    (∀ r, ((creature.as self S g).1 = Except.ok r ∨
        (creature.as_const self S g).1 = Except.ok r) → r = ⟨S, self⟩) ∧
    (S ∉ self.dyn.chain →
      (creature.as self S g).1 = Except.error TypeMismatch ∧
      (creature.as_const self S g).1 = Except.error TypeMismatch) := by
  have hi := (is_spec registered registered_length self S g (inv_registered g hg)
    (registered_chain _ hX) hS).1
  rw [as_eq, as_const_eq, hi]
  by_cases hm : S ∈ self.dyn.chain
  · simp [hm]
  · simp [hm]

/-- Witness of C1: at program start the cat Teddy narrows to `animal` (the
same object comes back) and the narrowing to `mushroom` throws. -/
theorem as_narrowing_sound_witness :
    Reachable registered Globals.init ∧
    (cat.mk "Teddy" true).dyn ∈ registered ∧ mushroom ∈ registered ∧
    (creature.as (cat.mk "Teddy" true) mushroom Globals.init).1
      = Except.error TypeMismatch :=
  ⟨reachable_init _, by decide, by decide,
    ((as_narrowing_sound Globals.init (reachable_init _) (cat.mk "Teddy" true)
      (by decide) mushroom (by decide)).2.2 (by decide)).1⟩

/-- C2. `is<T>()` is the disjunction of the virtual `is_base_id(T::id())` and
of `T::id() == who()`, evaluated in this order on the running state; and in
every program state, for an object of registered dynamic class `X` and a
registered `T`, it is true exactly when `T` is on the ancestor chain of `X`,
the dynamic class, whatever the static type of the reference. -/
theorem is_iff_on_dynamic_chain (g : Globals) (hg : Reachable registered g) (self : Obj)
    (hX : self.dyn ∈ registered) (T : Cls) (hT : T ∈ registered) :
    let t := Cls.id T g
    let r := creature.is_base_id self t.1 t.2
    let t2 := Cls.id T r.2
    let w := creature.who self t2.2
    ((creature.is self T g).1 = (r.1 || t2.1.eq w.1)) ∧
    ((creature.is self T g).1 = true ↔ T ∈ self.dyn.chain) := by
  intro t r t2 w
  refine ⟨?_, ?_⟩
  · show (creature.is self T g).1 = (r.1 || t2.1.eq w.1)
    unfold creature.is
    cases hr : r.1
    · simp only [t, r, t2, w] at hr ⊢
      simp [hr]
    · simp only [t, r] at hr
      simp [hr]
  · rw [(is_spec registered registered_length self T g (inv_registered g hg)
      (registered_chain _ hX) hT).1]
    simp

/-- Witness of C2: after `dog::id()` and `creature::id()` were requested, the
dog Sultan seen through a `creature` reference is an `animal`. -/
theorem is_iff_on_dynamic_chain_witness :
    Reachable registered (requestAll [dog, Cls.creature] Globals.init) ∧
    (creature.is (dog.mk "Sultan" 10) animal
      (requestAll [dog, Cls.creature] Globals.init)).1 = true :=
  ⟨⟨[dog, Cls.creature], by decide, rfl⟩,
    (is_iff_on_dynamic_chain (requestAll [dog, Cls.creature] Globals.init)
      ⟨[dog, Cls.creature], by decide, rfl⟩ (dog.mk "Sultan" 10) (by decide) animal
      (by decide)).2.2 (by decide)⟩

/-- C3, as amended. For every object, class `T` and state, `assert_is<T>()`
throws the `runtime_error` with the fixed message exactly when `is<T>()` is
false and returns normally exactly when it is true; its whole effect on the
program state is the one of the `is<T>()` it evaluates (the first-use
initialisation of the identities requested), and the state is left exactly as
it was once the identities of `T` and of the classes on the chain of the
dynamic class have been initialised. -/
theorem assert_is_throws_iff (self : Obj) (T : Cls) (g : Globals) :
    TypeMismatch = "Creature is not inherited from this class of creatures." ∧
    ((creature.assert_is self T g).1 = Except.error TypeMismatch ↔
      (creature.is self T g).1 = false) ∧
    ((creature.assert_is self T g).1 = Except.ok () ↔
      (creature.is self T g).1 = true) ∧
    (creature.assert_is self T g).2 = (creature.is self T g).2 ∧
    ((lookupStatic T g.statics).isSome = true →
      (∀ Z, Z ∈ self.dyn.chain → (lookupStatic Z g.statics).isSome = true) →
      (creature.assert_is self T g).2 = g) := by
  rw [assert_is_eq]
  refine ⟨rfl, ?_, ?_, rfl, fun hT hc => is_unchanged self T g hT hc⟩
  · cases h : (creature.is self T g).1 <;> simp
  · cases h : (creature.is self T g).1 <;> simp

/-- Counterexample to C3 as stated: at program start `is<creature>()` is true
on a plain creature and `assert_is<creature>()` returns normally, yet the call
changes the program state: `creature::id()` is initialised inside it and the
counter `g_last_class_index` advances from 0 to 1. -/
theorem assert_is_first_use_changes_state :
    (creature.is creature.mk Cls.creature Globals.init).1 = true ∧
    (creature.assert_is creature.mk Cls.creature Globals.init).1 = Except.ok () ∧
    (creature.assert_is creature.mk Cls.creature Globals.init).2
      = ⟨1, [(Cls.creature, ⟨"creature", 1⟩)]⟩ ∧
    (creature.assert_is creature.mk Cls.creature Globals.init).2 ≠ Globals.init :=
  ⟨by decide, rfl, by decide, by decide⟩

/-- C4 (chain correctness of the static resolver). For a program whose classes
`U` are closed under `base`, in every program state: for every chain
`creature -> A -> B -> C` of `DERIVED_FROM` declarations the walk from `C`
finds `creature`, `A` and `B`, and the walks from `creature` and from `A` do
not find `C`; in general `is_derived<X>::from<Y>()` is true for every `Y` on
the ancestor chain of `X` and false for every strict descendant `Y` of `X`. -/
theorem is_derived_chain_correct (U : List Cls) (hU : U.length ≤ 4294967296)
    (hcl : ∀ X, X ∈ U → ∀ Z, Z ∈ X.chain → Z ∈ U) (g : Globals) (hg : Reachable U g) :
    (∀ a b c : String,
      Cls.derived c (Cls.derived b (Cls.derived a Cls.creature)) ∈ U →
      (is_derived (Cls.derived c (Cls.derived b (Cls.derived a Cls.creature)))
        Cls.creature g).1 = true ∧
      (is_derived (Cls.derived c (Cls.derived b (Cls.derived a Cls.creature)))
        (Cls.derived a Cls.creature) g).1 = true ∧
      (is_derived (Cls.derived c (Cls.derived b (Cls.derived a Cls.creature)))
        (Cls.derived b (Cls.derived a Cls.creature)) g).1 = true ∧
      (is_derived Cls.creature
        (Cls.derived c (Cls.derived b (Cls.derived a Cls.creature))) g).1 = false ∧
      (is_derived (Cls.derived a Cls.creature)
        (Cls.derived c (Cls.derived b (Cls.derived a Cls.creature))) g).1 = false) ∧
    (∀ X Y : Cls, X ∈ U → Y ∈ U →
      (Y ∈ X.chain → (is_derived X Y g).1 = true) ∧
      (X ∈ Y.chain → X ≠ Y → (is_derived X Y g).1 = false)) := by
  have hi := inv_of_reachable U hU g hg
  have key : ∀ X Y : Cls, X ∈ U → Y ∈ U →
      (is_derived X Y g).1 = decide (Y ∈ X.chain) := fun X Y hX hY =>
    (is_derived_spec U hU Y hY X g hi (hcl X hX)).1
  refine ⟨?_, ?_⟩
  · intro a b c hC
    have hR : Cls.creature ∈ U := hcl _ hC _ (by simp [Cls.chain])
    have hA : Cls.derived a Cls.creature ∈ U := hcl _ hC _ (by simp [Cls.chain])
    have hB : Cls.derived b (Cls.derived a Cls.creature) ∈ U :=
      hcl _ hC _ (by simp [Cls.chain])
    rw [key _ _ hC hR, key _ _ hC hA, key _ _ hC hB, key _ _ hR hC, key _ _ hA hC]
    simp [Cls.chain]
  · intro X Y hX hY
    rw [key X Y hX hY]
    refine ⟨fun h => by simp [h], fun h hne => ?_⟩
    have : Y ∉ X.chain := fun h2 => hne (chain_antisymm X Y h h2)
    simp [this]

/-- Witness of C4 on the chain `creature -> animal -> cat` of the repository,
at program start. -/
theorem is_derived_chain_correct_witness :
    registered.length ≤ 4294967296 ∧ Reachable registered Globals.init ∧
    (is_derived cat animal Globals.init).1 = true ∧
    (is_derived Cls.creature cat Globals.init).1 = false :=
  ⟨by decide, reachable_init _,
    ((is_derived_chain_correct registered registered_length registered_chain
      Globals.init (reachable_init _)).2 cat animal (by decide) (by decide)).1 (by decide),
    ((is_derived_chain_correct registered registered_length registered_chain
      Globals.init (reachable_init _)).2 Cls.creature cat (by decide) (by decide)).2
        (by decide) (by decide)⟩

/-- C5 (reflexivity). In every program state and for every registered class
`T` (the root `creature` included), `is_derived<T>::from<T>()` is true, and
`is<T>()` is true on every object whose dynamic class is `T`. -/
theorem is_derived_and_is_reflexive (g : Globals) (hg : Reachable registered g)
    (T : Cls) (hT : T ∈ registered) :
    (is_derived T T g).1 = true ∧
    (∀ self : Obj, self.dyn = T → (creature.is self T g).1 = true) := by
  have hi := inv_registered g hg
  refine ⟨?_, ?_⟩
  · rw [(is_derived_spec registered registered_length T hT T g hi
      (registered_chain T hT)).1]
    simp [chain_self]
  · intro self hs
    subst hs
    rw [(is_spec registered registered_length self self.dyn g hi
      (registered_chain _ hT) hT).1]
    simp [chain_self]

/-- Witness of C5 at the root class, at program start. -/
theorem is_derived_and_is_reflexive_witness :
    Reachable registered Globals.init ∧ Cls.creature ∈ registered ∧
    (is_derived Cls.creature Cls.creature Globals.init).1 = true :=
  ⟨reachable_init _, by decide,
    (is_derived_and_is_reflexive Globals.init (reachable_init _) Cls.creature
      (by decide)).1⟩

/-- C6 (unrelated classes). In every program state, for registered `X` and `Y`
with `Y` not on the ancestor chain of `X`, the static walk (a total function,
so it terminates) returns false, and the classes it compares against `Y` are
exactly the classes of the chain of `X`, each once, the last being
`creature`. -/
theorem is_derived_unrelated_false (g : Globals) (hg : Reachable registered g)
    (X Y : Cls) (hX : X ∈ registered) (hY : Y ∈ registered) (hn : Y ∉ X.chain) :
    (is_derived_traced X Y g).2 = is_derived X Y g ∧
    (is_derived X Y g).1 = false ∧
    (is_derived_traced X Y g).1 = X.chain ∧
    (is_derived_traced X Y g).1.Nodup ∧
    (is_derived_traced X Y g).1.getLast? = some Cls.creature := by
  have hi := inv_registered g hg
  have hv := is_derived_traced_fst registered registered_length Y hY X g hi
    (registered_chain X hX) hn
  refine ⟨is_derived_traced_snd Y X g, ?_, hv, ?_, ?_⟩
  · rw [(is_derived_spec registered registered_length Y hY X g hi
      (registered_chain X hX)).1]
    simp [hn]
  · rw [hv]; exact chain_nodup X
  · rw [hv]; exact chain_getLast X

/-- Witness of C6: `dog` is not derived from `mushroom`; the walk visits
`dog`, `animal`, `creature`. -/
theorem is_derived_unrelated_false_witness :
    Reachable registered Globals.init ∧ mushroom ∉ dog.chain ∧
    (is_derived dog mushroom Globals.init).1 = false ∧
    (is_derived_traced dog mushroom Globals.init).1 = [dog, animal, Cls.creature] :=
  ⟨reachable_init _, by decide,
    (is_derived_unrelated_false Globals.init (reachable_init _) dog mushroom
      (by decide) (by decide) (by decide)).2.1, by decide⟩

/-- C7 (uniqueness). After any sequence of `id()` requests on the registered
classes (any order, any repetition) from program start, the identities of two
distinct registered classes compare unequal and the token of a class carries
the name of that class; and in any state, once `X::id()` has been called, every
later call of `X::id()`, whatever was requested in between, returns the same
token (index and name) and leaves the state, the counter included, as it
was. -/
theorem id_unique_and_idempotent (calls : List Cls)
    (hc : ∀ Z, Z ∈ calls → Z ∈ registered) (X Y : Cls) (hX : X ∈ registered)
    (hY : Y ∈ registered) (hne : X ≠ Y) :
    (Cls.id X (requestAll calls Globals.init)).1.eq
      (Cls.id Y (Cls.id X (requestAll calls Globals.init)).2).1 = false ∧
    (Cls.id X (requestAll calls Globals.init)).1.m_name = X.name ∧
    (∀ (g : Globals) (more : List Cls),
      Cls.id X (requestAll more (Cls.id X g).2) =
        ((Cls.id X g).1, requestAll more (Cls.id X g).2)) := by
  have hi := inv_requestAll registered registered_length calls Globals.init
    (inv_init _) hc
  refine ⟨?_, ?_, ?_⟩
  · rw [(id_pair_spec registered registered_length _ hi X Y hX hY).1]
    simp [hne]
  · exact (inv_id registered registered_length _ hi X hX).names X _ (id_lookup X _)
  · intro g more
    exact id_of_lookup X _ _ (requestAll_le more _ X _ (id_lookup X g))

/-- Witness of C7: when `mushroom::id()` and `cat::id()` are requested first,
`creature::id()` and `animal::id()` still differ. -/
theorem id_unique_and_idempotent_witness :
    Cls.creature ≠ animal ∧
    (Cls.id Cls.creature (requestAll [mushroom, cat, mushroom] Globals.init)).1.eq
      (Cls.id animal (Cls.id Cls.creature
        (requestAll [mushroom, cat, mushroom] Globals.init)).2).1 = false :=
  ⟨by decide,
    (id_unique_and_idempotent [mushroom, cat, mushroom] (by decide) Cls.creature animal
      (by decide) (by decide) (by decide)).1⟩

/-- C9. Through a `creature` reference, `who()` returns exactly `X::id()` for
the dynamic class `X` of the object (same token, same effect on the state);
and in every state of a program with classes `U`, that token differs from the
identity of every other class `Y` of `U`, the static type `creature` of the
reference and the ancestors of `X` included. -/
theorem who_returns_dynamic_id (U : List Cls) (hU : U.length ≤ 4294967296)
    (g : Globals) (hg : Reachable U g) (self : Obj) (hX : self.dyn ∈ U) :
    creature.who self g = Cls.id self.dyn g ∧
    (∀ Y : Cls, Y ∈ U → Y ≠ self.dyn →
      (creature.who self g).1.eq (Cls.id Y (creature.who self g).2).1 = false) := by
  have hw : creature.who self g = Cls.id self.dyn g := who_override_eq self.dyn g
  refine ⟨hw, ?_⟩
  intro Y hY hne
  rw [hw, (id_pair_spec U hU g (inv_of_reachable U hU g hg) self.dyn Y hX hY).1]
  have : ¬ self.dyn = Y := fun e => hne e.symm
  simp [this]

/-- Witness of C9: the cat Dusty answers `cat::id()`, which is not
`creature::id()`. -/
theorem who_returns_dynamic_id_witness :
    registered.length ≤ 4294967296 ∧ Reachable registered Globals.init ∧
    creature.who (cat.mk "Dusty" false) Globals.init = Cls.id cat Globals.init ∧
    (creature.who (cat.mk "Dusty" false) Globals.init).1.eq
      (Cls.id Cls.creature (creature.who (cat.mk "Dusty" false) Globals.init).2).1
        = false :=
  ⟨by decide, reachable_init _,
    (who_returns_dynamic_id registered registered_length Globals.init (reachable_init _)
      (cat.mk "Dusty" false) (by decide)).1,
    (who_returns_dynamic_id registered registered_length Globals.init (reachable_init _)
      (cat.mk "Dusty" false) (by decide)).2 Cls.creature (by decide) (by decide)⟩

/-- C10 (sibling isolation). For a program whose classes `U` are closed under
`base`, in every program state: if `A` and `B` are distinct classes declared
with the same base `P`, every object of dynamic class `A` has `is<B>()` false
and `is<P>()` true, and both overloads of `as<B>()` throw the
`runtime_error`. -/
theorem sibling_isolation (U : List Cls) (hU : U.length ≤ 4294967296)
    (hcl : ∀ X, X ∈ U → ∀ Z, Z ∈ X.chain → Z ∈ U) (g : Globals) (hg : Reachable U g)
    (a b : String) (P : Cls) (hab : a ≠ b) (hA : Cls.derived a P ∈ U)
    (hB : Cls.derived b P ∈ U) (self : Obj) (hs : self.dyn = Cls.derived a P) :
    (creature.is self (Cls.derived b P) g).1 = false ∧
    (creature.is self P g).1 = true ∧
    (creature.as self (Cls.derived b P) g).1 = Except.error TypeMismatch ∧
    (creature.as_const self (Cls.derived b P) g).1 = Except.error TypeMismatch := by
  have hi := inv_of_reachable U hU g hg
  have hc : ∀ Z, Z ∈ self.dyn.chain → Z ∈ U := by
    rw [hs]; exact hcl _ hA
  have hP : P ∈ U := hcl _ hA P (by simp [Cls.chain, chain_self])
  have hnot : Cls.derived b P ∉ self.dyn.chain := by
    rw [hs]
    simp only [Cls.chain, List.mem_cons, not_or]
    refine ⟨fun e => hab (by injection e with e1 _; exact e1.symm), fun h => ?_⟩
    have := (chain_depth _ _ h).1
    simp only [Cls.depth] at this
    omega
  have hin : P ∈ self.dyn.chain := by
    rw [hs]; simp [Cls.chain, chain_self]
  have e1 := (is_spec U hU self (Cls.derived b P) g hi hc hB).1
  have e2 := (is_spec U hU self P g hi hc hP).1
  simp only [hnot, decide_False] at e1
  simp only [hin, decide_True] at e2
  rw [as_eq, as_const_eq, e1, e2]
  simp

/-- Witness of C10: the cat Teddy is not a `dog`, is an `animal`, and
`as<dog>()` throws. -/
theorem sibling_isolation_witness :
    registered.length ≤ 4294967296 ∧ Reachable registered Globals.init ∧
    (creature.is (cat.mk "Teddy" true) dog Globals.init).1 = false ∧
    (creature.is (cat.mk "Teddy" true) animal Globals.init).1 = true ∧
    (creature.as (cat.mk "Teddy" true) dog Globals.init).1 = Except.error TypeMismatch ∧
    (creature.as_const (cat.mk "Teddy" true) dog Globals.init).1
      = Except.error TypeMismatch :=
  ⟨by decide, reachable_init _,
    sibling_isolation registered registered_length registered_chain Globals.init
      (reachable_init _) "cat" "dog" animal (by decide) (by decide) (by decide)
      (cat.mk "Teddy" true) rfl⟩


/-- C11 (scenario). In every program state, every object constructed as `cat`
has `who() == cat::id()`, `is<animal>()` and `is<creature>()` true, `is<dog>()`
and `is<mushroom>()` false, `as<animal>()` returns the object and
`as<mushroom>()` throws (both overloads); an object constructed as `creature`
has `is<animal>()` false and `is<creature>()` true. -/
theorem scenario_cat_and_creature (g : Globals) (hg : Reachable registered g)
    (cat_name : String) (is_cute : Bool) :
    (creature.who (cat.mk cat_name is_cute) g = Cls.id cat g ∧
      (creature.who (cat.mk cat_name is_cute) g).1.eq
        (Cls.id cat (creature.who (cat.mk cat_name is_cute) g).2).1 = true) ∧
    ((creature.is (cat.mk cat_name is_cute) animal g).1 = true ∧
      (creature.is (cat.mk cat_name is_cute) Cls.creature g).1 = true ∧
      (creature.is (cat.mk cat_name is_cute) dog g).1 = false ∧
      (creature.is (cat.mk cat_name is_cute) mushroom g).1 = false) ∧
    ((creature.as (cat.mk cat_name is_cute) animal g).1
        = Except.ok ⟨animal, cat.mk cat_name is_cute⟩ ∧
      (creature.as_const (cat.mk cat_name is_cute) animal g).1
        = Except.ok ⟨animal, cat.mk cat_name is_cute⟩ ∧
      (creature.as (cat.mk cat_name is_cute) mushroom g).1
        = Except.error TypeMismatch ∧
      (creature.as_const (cat.mk cat_name is_cute) mushroom g).1
        = Except.error TypeMismatch) ∧
    ((creature.is creature.mk animal g).1 = false ∧
      (creature.is creature.mk Cls.creature g).1 = true) := by
  have hc : (cat.mk cat_name is_cute).dyn ∈ registered := (by decide : cat ∈ registered)
  have hr : creature.mk.dyn ∈ registered := by decide
  have hw : creature.who (cat.mk cat_name is_cute) g = Cls.id cat g :=
    who_override_eq cat g
  have e1 := is_result g hg (cat.mk cat_name is_cute) hc animal (by decide)
  have e2 := is_result g hg (cat.mk cat_name is_cute) hc Cls.creature (by decide)
  have e3 := is_result g hg (cat.mk cat_name is_cute) hc dog (by decide)
  have e4 := is_result g hg (cat.mk cat_name is_cute) hc mushroom (by decide)
  have e5 := is_result g hg creature.mk hr animal (by decide)
  have e6 := is_result g hg creature.mk hr Cls.creature (by decide)
  have d1 : decide (animal ∈ (cat.mk cat_name is_cute).dyn.chain) = true :=
    (by decide : decide (animal ∈ cat.chain) = true)
  have d2 : decide (Cls.creature ∈ (cat.mk cat_name is_cute).dyn.chain) = true :=
    (by decide : decide (Cls.creature ∈ cat.chain) = true)
  have d3 : decide (dog ∈ (cat.mk cat_name is_cute).dyn.chain) = false :=
    (by decide : decide (dog ∈ cat.chain) = false)
  have d4 : decide (mushroom ∈ (cat.mk cat_name is_cute).dyn.chain) = false :=
    (by decide : decide (mushroom ∈ cat.chain) = false)
  have d5 : decide (animal ∈ creature.mk.dyn.chain) = false := by decide
  have d6 : decide (Cls.creature ∈ creature.mk.dyn.chain) = true := by decide
  rw [d1] at e1
  rw [d2] at e2
  rw [d3] at e3
  rw [d4] at e4
  rw [d5] at e5
  rw [d6] at e6
  refine ⟨⟨hw, ?_⟩, ⟨e1, e2, e3, e4⟩, ?_, ⟨e5, e6⟩⟩
  · rw [hw, (id_pair_spec registered registered_length g (inv_registered g hg) cat cat
      (by decide) (by decide)).1]
    simp
  · rw [as_eq, as_const_eq, as_eq, as_const_eq, e1, e4]
    simp

/-- Witness of C11: the cat Teddy of the Zoo, after `mushroom::id()` was the
first identity requested. -/
theorem scenario_cat_and_creature_witness :
    Reachable registered (requestAll [mushroom] Globals.init) ∧
    (creature.is (cat.mk "Teddy" true) animal (requestAll [mushroom] Globals.init)).1
      = true ∧
    (creature.is (cat.mk "Teddy" true) mushroom (requestAll [mushroom] Globals.init)).1
      = false :=
  ⟨⟨[mushroom], by decide, rfl⟩,
    (scenario_cat_and_creature (requestAll [mushroom] Globals.init)
      ⟨[mushroom], by decide, rfl⟩ "Teddy" true).2.1.1,
    (scenario_cat_and_creature (requestAll [mushroom] Globals.init)
      ⟨[mushroom], by decide, rfl⟩ "Teddy" true).2.1.2.2.2⟩

/-- C14 (the second clause of `is` is redundant). In every program state, for
every object of registered dynamic class and every registered `T`, the whole
`is<T>()`, result and final state, is the virtual `is_base_id(T::id())` alone;
the disjunction `is_base_id(T::id()) || T::id() == who()` has the value of its
first operand, because whenever `T::id() == who()` holds the override of the
dynamic class has already answered true. -/
theorem is_second_clause_redundant (g : Globals) (hg : Reachable registered g)
    (self : Obj) (hX : self.dyn ∈ registered) (T : Cls) (hT : T ∈ registered) :
    let t := Cls.id T g
    let r := creature.is_base_id self t.1 t.2
    let t2 := Cls.id T r.2
    let w := creature.who self t2.2
    creature.is self T g = r ∧ (r.1 || t2.1.eq w.1) = r.1 ∧
      (t2.1.eq w.1 = true → r.1 = true) := by
  intro t r t2 w
  have hi := inv_registered g hg
  have hs := is_base_id_spec registered registered_length T t.1 self.dyn t.2
    (inv_id registered registered_length g hi T hT) (registered_chain _ hX)
    (id_lookup T g)
  have hr : r.1 = decide (T ∈ self.dyn.chain) := hs.1
  have hp := id_pair_spec registered registered_length r.2 hs.2.1 T self.dyn hT hX
  have hw : t2.1.eq w.1 = decide (T = self.dyn) := by
    have : w = Cls.id self.dyn t2.2 := who_override_eq self.dyn t2.2
    rw [this]
    exact hp.1
  have himp : t2.1.eq w.1 = true → r.1 = true := by
    intro h
    rw [hw] at h
    rw [hr]
    have e : T = self.dyn := of_decide_eq_true h
    rw [e]
    simp [chain_self]
  refine ⟨?_, ?_, himp⟩
  · apply Prod.ext
    · rw [is_result g hg self hX T hT]
      exact hr.symm
    · exact is_state_eq self T g
  · cases h1 : r.1
    · cases h2 : t2.1.eq w.1
      · rfl
      · rw [himp h2] at h1
        cases h1
    · rfl

/-- Witness of C14: asking the cat Teddy whether it is a `cat` at program
start, where both clauses hold. -/
theorem is_second_clause_redundant_witness :
    Reachable registered Globals.init ∧
    creature.is (cat.mk "Teddy" true) cat Globals.init =
      creature.is_base_id (cat.mk "Teddy" true) (Cls.id cat Globals.init).1
        (Cls.id cat Globals.init).2 :=
  ⟨reachable_init _,
    (is_second_clause_redundant Globals.init (reachable_init _) (cat.mk "Teddy" true)
      (by decide) cat (by decide)).1⟩

/-- C15 (the dynamic test agrees with the static resolver). For every object
of registered dynamic class `X` and every registered `T`, `is<T>()` called
through a `creature` reference returns the boolean that
`is_derived<X>::from<T>()` returns, in whatever program states the two are
evaluated. -/
theorem is_agrees_with_is_derived (g1 g2 : Globals) (h1 : Reachable registered g1)
    (h2 : Reachable registered g2) (self : Obj) (hX : self.dyn ∈ registered) (T : Cls)
    (hT : T ∈ registered) :
    (creature.is self T g1).1 = (is_derived self.dyn T g2).1 := by
  rw [is_result g1 h1 self hX T hT, is_derived_result g2 h2 self.dyn T hX hT]

/-- Witness of C15: the dog Winky and the class `mushroom`, the dynamic test
at program start and the static one after `cat::id()` was requested. -/
theorem is_agrees_with_is_derived_witness :
    Reachable registered Globals.init ∧
    Reachable registered (requestAll [cat] Globals.init) ∧
    (creature.is (dog.mk "Winky" 2) mushroom Globals.init).1 =
      (is_derived dog mushroom (requestAll [cat] Globals.init)).1 :=
  ⟨reachable_init _, ⟨[cat], by decide, rfl⟩,
    is_agrees_with_is_derived Globals.init (requestAll [cat] Globals.init)
      (reachable_init _) ⟨[cat], by decide, rfl⟩ (dog.mk "Winky" 2) (by decide) mushroom
      (by decide)⟩

/-- C16 (transitivity). For registered classes `X`, `Y`, `Z`: if
`is_derived<X>::from<Y>()` and `is_derived<Y>::from<Z>()` are true then so is
`is_derived<X>::from<Z>()`, in whatever program states the three calls are
evaluated. -/
theorem is_derived_transitive (g1 g2 g3 : Globals) (h1 : Reachable registered g1)
    (h2 : Reachable registered g2) (h3 : Reachable registered g3) (X Y Z : Cls)
    (hX : X ∈ registered) (hY : Y ∈ registered) (hZ : Z ∈ registered)
    (hxy : (is_derived X Y g1).1 = true) (hyz : (is_derived Y Z g2).1 = true) :
    (is_derived X Z g3).1 = true := by
  rw [is_derived_result g1 h1 X Y hX hY] at hxy
  rw [is_derived_result g2 h2 Y Z hY hZ] at hyz
  rw [is_derived_result g3 h3 X Z hX hZ]
  exact decide_eq_true (chain_trans X Y Z (of_decide_eq_true hyz) (of_decide_eq_true hxy))

/-- Witness of C16 on `cat`, `animal`, `creature` at program start. -/
theorem is_derived_transitive_witness :
    (is_derived cat animal Globals.init).1 = true ∧
    (is_derived animal Cls.creature Globals.init).1 = true ∧
    (is_derived cat Cls.creature Globals.init).1 = true :=
  ⟨by decide, by decide,
    is_derived_transitive Globals.init Globals.init Globals.init (reachable_init _)
      (reachable_init _) (reachable_init _) cat animal Cls.creature (by decide)
      (by decide) (by decide) (by decide) (by decide)⟩

/-- C17 (antisymmetry). For registered classes `X` and `Y`: if
`is_derived<X>::from<Y>()` and `is_derived<Y>::from<X>()` are both true, in
whatever program states, then `X` and `Y` are the same class and
`X::id() == Y::id()` holds. -/
theorem is_derived_antisymmetric (g1 g2 g3 : Globals) (h1 : Reachable registered g1)
    (h2 : Reachable registered g2) (h3 : Reachable registered g3) (X Y : Cls)
    (hX : X ∈ registered) (hY : Y ∈ registered)
    (hxy : (is_derived X Y g1).1 = true) (hyx : (is_derived Y X g2).1 = true) :
    X = Y ∧ (Cls.id X g3).1.eq (Cls.id Y (Cls.id X g3).2).1 = true := by
  rw [is_derived_result g1 h1 X Y hX hY] at hxy
  rw [is_derived_result g2 h2 Y X hY hX] at hyx
  have e : X = Y := chain_antisymm X Y (of_decide_eq_true hyx) (of_decide_eq_true hxy)
  refine ⟨e, ?_⟩
  rw [(id_pair_spec registered registered_length g3 (inv_registered g3 h3) X Y hX hY).1]
  exact decide_eq_true e

/-- Witness of C17: the only way both walks succeed, here with `dog` on both
sides. -/
theorem is_derived_antisymmetric_witness :
    (is_derived dog dog Globals.init).1 = true ∧
    (Cls.id dog Globals.init).1.eq (Cls.id dog (Cls.id dog Globals.init).2).1 = true :=
  ⟨by decide,
    (is_derived_antisymmetric Globals.init Globals.init Globals.init (reachable_init _)
      (reachable_init _) (reachable_init _) dog dog (by decide) (by decide) (by decide)
      (by decide)).2⟩

/-- C12, as amended. Every construction gives the new token the value of the
counter after `++g_last_class_index` in 32-bit `int` arithmetic, and its name;
the counter starts at 0, so from program start the tokens of fewer than `2^31`
constructions have the indices 1, 2, 3, ... in creation order, strictly
increasing; and from any state the tokens of at most `2^32` consecutive
constructions compare pairwise unequal. -/
theorem ctor_sequence_indices (names : List String) :
    Globals.init.g_last_class_index = 0 ∧
    (∀ (n : String) (g : Globals),
      (class_id.ctor n g).1.index = wrap32 (g.g_last_class_index + 1) ∧
      (class_id.ctor n g).2.g_last_class_index = (class_id.ctor n g).1.index ∧
      (class_id.ctor n g).1.name = n) ∧
    (names.length < 2147483648 →
      (constructTokens names Globals.init).map class_id.index =
        (List.range names.length).map (fun (i : Nat) => (i : Int) + 1) ∧
      (constructTokens names Globals.init).Pairwise (fun a b => a.index < b.index)) ∧
    (∀ g : Globals, names.length ≤ 4294967296 →
      (constructTokens names g).Pairwise (fun a b => a.eq b = false)) := by
  refine ⟨rfl, fun n g => ⟨rfl, rfl, rfl⟩, ?_, fun g h => constructTokens_distinct names g h⟩
  intro hl
  have hm := constructTokens_index names Globals.init (by decide)
    (by simp only [Globals.init]; omega)
  have hm2 : (constructTokens names Globals.init).map class_id.index =
      (List.range names.length).map (fun (i : Nat) => (i : Int) + 1) := by
    rw [hm]
    apply List.map_congr_left
    intro i _
    simp [Globals.init]
  refine ⟨hm2, ?_⟩
  have hp : ((List.range names.length).map (fun (i : Nat) => (i : Int) + 1)).Pairwise
      (fun x y => x < y) := by
    apply List.Pairwise.map _ _ (List.pairwise_lt_range names.length)
    intro a b hab
    show (a : Int) + 1 < (b : Int) + 1
    omega
  rw [← hm2] at hp
  exact List.pairwise_map.1 hp

/-- Witness of C12: three constructions from program start. -/
theorem ctor_sequence_indices_witness :
    (constructTokens ["creature", "animal", "cat"] Globals.init).map class_id.index
      = [1, 2, 3] :=
  ((ctor_sequence_indices ["creature", "animal", "cat"]).2.2.1 (by decide)).1

/-- Counterexample to C12 as stated, on the sequence of constructions that
starts at program start: its token number `2^31 - 1` has the index
`2147483647` and the next one the index `-2147483648`, so the indices are not
increasing there; and its token number `2^32 + 1` has the index of the first
token, so the two compare equal. -/
theorem ctor_index_wraps_round :
    (class_id.ctor "x" (constructAll (List.replicate 2147483646 "x") Globals.init)).1.index
      = 2147483647 ∧
    (class_id.ctor "x" (constructAll (List.replicate 2147483647 "x") Globals.init)).1.index
      = -2147483648 ∧
    (class_id.ctor "x" Globals.init).1.index = 1 ∧
    (class_id.ctor "x" (constructAll (List.replicate 4294967295 "x")
      (class_id.ctor "x" Globals.init).2)).1.index = 1 ∧
    (class_id.ctor "x" Globals.init).1.eq
      (class_id.ctor "x" (constructAll (List.replicate 4294967295 "x")
        (class_id.ctor "x" Globals.init).2)).1 = true := by
  have h1 := ctor_index_after_length "x" (List.replicate 2147483646 "x") Globals.init
    2147483646 (List.length_replicate _ _)
  have h2 := ctor_index_after_length "x" (List.replicate 2147483647 "x") Globals.init
    2147483647 (List.length_replicate _ _)
  have h3 := ctor_index_after_length "x" (List.replicate 4294967295 "x")
    (class_id.ctor "x" Globals.init).2 4294967295 (List.length_replicate _ _)
  have e1 : wrap32 (Globals.init.g_last_class_index + (2147483646 : Nat) + 1)
      = 2147483647 := by decide
  have e2 : wrap32 (Globals.init.g_last_class_index + (2147483647 : Nat) + 1)
      = -2147483648 := by decide
  have e3 : wrap32 ((class_id.ctor "x" Globals.init).2.g_last_class_index
      + (4294967295 : Nat) + 1) = 1 := by decide
  have e0 : (class_id.ctor "x" Globals.init).1.index = 1 := by decide
  rw [e1] at h1
  rw [e2] at h2
  rw [e3] at h3
  exact ⟨h1, h2, e0, h3, eq_of_index _ _ (e0.trans h3.symm)⟩

/-- C18 (independence of the initialisation order). When the five identities
are first requested in the order `p` (any permutation of the registered
classes), the class `X` receives the index one plus its position in `p`, so the
indices depend on the order; yet `is_derived<X>::from<Y>()`, `is<T>()` and both
overloads of `as<T>()` (reference returned or exception thrown) give the same
results after the order `p` as after any other order `q`, and more generally
in any two program states. -/
theorem results_independent_of_request_order (p q : List Cls)
    (hp : p.Perm registered) (hq : q.Perm registered) (X Y T : Cls)
    (hX : X ∈ registered) (hY : Y ∈ registered) (hT : T ∈ registered) (self : Obj)
    (hs : self.dyn ∈ registered) :
    ((Cls.id X (requestAll p Globals.init)).1.index = ((p.indexOf X + 1 : Nat) : Int) ∧
      (Cls.id X (requestAll q Globals.init)).1.index = ((q.indexOf X + 1 : Nat) : Int)) ∧
    ((is_derived X Y (requestAll p Globals.init)).1 =
        (is_derived X Y (requestAll q Globals.init)).1 ∧
      (creature.is self T (requestAll p Globals.init)).1 =
        (creature.is self T (requestAll q Globals.init)).1 ∧
      (creature.as self T (requestAll p Globals.init)).1 =
        (creature.as self T (requestAll q Globals.init)).1 ∧
      (creature.as_const self T (requestAll p Globals.init)).1 =
        (creature.as_const self T (requestAll q Globals.init)).1) ∧
    (∀ g1 g2 : Globals, Reachable registered g1 → Reachable registered g2 →
      (is_derived X Y g1).1 = (is_derived X Y g2).1 ∧
      (creature.is self T g1).1 = (creature.is self T g2).1 ∧
      (creature.as self T g1).1 = (creature.as self T g2).1 ∧
      (creature.as_const self T g1).1 = (creature.as_const self T g2).1) := by
  have key : ∀ g1 g2 : Globals, Reachable registered g1 → Reachable registered g2 →
      (is_derived X Y g1).1 = (is_derived X Y g2).1 ∧
      (creature.is self T g1).1 = (creature.is self T g2).1 ∧
      (creature.as self T g1).1 = (creature.as self T g2).1 ∧
      (creature.as_const self T g1).1 = (creature.as_const self T g2).1 := by
    intro g1 g2 h1 h2
    have e1 := is_result g1 h1 self hs T hT
    have e2 := is_result g2 h2 self hs T hT
    refine ⟨?_, ?_, ?_, ?_⟩
    · rw [is_derived_result g1 h1 X Y hX hY, is_derived_result g2 h2 X Y hX hY]
    · rw [e1, e2]
    · rw [as_eq, as_eq, e1, e2]
    · rw [as_const_eq, as_const_eq, e1, e2]
  exact ⟨⟨index_after_first_requests p hp X hX, index_after_first_requests q hq X hX⟩,
    key _ _ (reachable_of_perm p hp) (reachable_of_perm q hq), key⟩

/-- Witness of C18: `creature` receives the index 1 when the identities are
first requested in declaration order and the index 5 in the reverse order, and
the cat Teddy is an `animal` either way. -/
theorem results_independent_of_request_order_witness :
    (Cls.id Cls.creature (requestAll registered Globals.init)).1.index = 1 ∧
    (Cls.id Cls.creature (requestAll registered.reverse Globals.init)).1.index = 5 ∧
    (creature.is (cat.mk "Teddy" true) animal (requestAll registered Globals.init)).1 =
      (creature.is (cat.mk "Teddy" true) animal
        (requestAll registered.reverse Globals.init)).1 :=
  ⟨(results_independent_of_request_order registered registered.reverse
      (List.Perm.refl _) (List.reverse_perm _) Cls.creature cat animal (by decide)
      (by decide) (by decide) (cat.mk "Teddy" true) (by decide)).1.1,
    (results_independent_of_request_order registered registered.reverse
      (List.Perm.refl _) (List.reverse_perm _) Cls.creature cat animal (by decide)
      (by decide) (by decide) (cat.mk "Teddy" true) (by decide)).1.2,
    (results_independent_of_request_order registered registered.reverse
      (List.Perm.refl _) (List.reverse_perm _) Cls.creature cat animal (by decide)
      (by decide) (by decide) (cat.mk "Teddy" true) (by decide)).2.1.2.1⟩

/-- C19 (the Zoo traversal never throws). For every content of the Zoo whose
objects have the dynamic classes `cat`, `dog`, `mushroom` or `creature`, in
every program state: the loop ends without an exception, each object taking
the branch of its class, none the branch that prints "Nobody knows who is that
beast!"; `main` returns 0 and writes nothing to `cerr`; every such object with
`is<animal>()` true has `is<cat>()` or `is<dog>()` true; and a plain
`creature` takes the "unknown creature" branch. -/
theorem zoo_traversal_never_throws (Zoo : List Obj)
    (hz : ∀ X, X ∈ Zoo → X.dyn ∈ [cat, dog, mushroom, Cls.creature])
    (out : String) (g : Globals) (hg : Reachable registered g) :
    ((zoo_loop Zoo out g).1 = Except.ok (Zoo.map (fun X => expected_branch X.dyn)) ∧
      Branch.unknown_beast ∉ Zoo.map (fun X => expected_branch X.dyn)) ∧
    ((main_on Zoo g).1 = 0 ∧ (main_on Zoo g).2.1.cerr = "") ∧
    (∀ X, X ∈ Zoo → (creature.is X animal g).1 = true →
      (creature.is X cat g).1 = true ∨ (creature.is X dog g).1 = true) ∧
    (∀ X : Obj, X.dyn = Cls.creature →
      (zoo_visit X out g).1 = Except.ok Branch.unknown_creature) := by
  refine ⟨⟨(zoo_loop_spec Zoo hz out g hg).1, ?_⟩, main_on_ok Zoo hz g hg, ?_, ?_⟩
  · intro h
    obtain ⟨X, _, hX⟩ := List.mem_map.1 h
    exact expected_branch_ne X.dyn hX
  · intro X hX ha
    have hd := hz X hX
    simp only [List.mem_cons, List.mem_singleton, List.not_mem_nil, or_false] at hd
    rcases hd with hd | hd | hd | hd
    · have hR : X.dyn ∈ registered := by rw [hd]; decide
      exact Or.inl (is_step_true g hg X hR cat (by decide) (by rw [hd]; decide)).1
    · have hR : X.dyn ∈ registered := by rw [hd]; decide
      exact Or.inr (is_step_true g hg X hR dog (by decide) (by rw [hd]; decide)).1
    · have hR : X.dyn ∈ registered := by rw [hd]; decide
      have hf := (is_step_false g hg X hR animal (by decide) (by rw [hd]; decide)).1
      rw [hf] at ha
      cases ha
    · have hR : X.dyn ∈ registered := by rw [hd]; decide
      have hf := (is_step_false g hg X hR animal (by decide) (by rw [hd]; decide)).1
      rw [hf] at ha
      cases ha
  · intro X hd
    have hv := (zoo_visit_spec X (by rw [hd]; decide) out g hg).1
    rw [hv, hd]
    rfl

/-- Witness of C19: the program itself; `main` with its seven-element Zoo
returns 0, and the loop takes the branches cat, unknown creature, dog, cat,
mushroom, dog, mushroom. -/
theorem zoo_traversal_never_throws_witness :
    main.1 = 0 ∧
    (zoo_loop Zoo "" Globals.init).1 =
      Except.ok [Branch.is_cat, Branch.unknown_creature, Branch.is_dog, Branch.is_cat,
        Branch.is_mushroom, Branch.is_dog, Branch.is_mushroom] :=
  ⟨(zoo_traversal_never_throws Zoo (by decide) "" Globals.init (reachable_init _)).2.1.1,
    (zoo_traversal_never_throws Zoo (by decide) "" Globals.init (reachable_init _)).1.1⟩

end Creatures
